import Mathlib

/-!
Verification of the PaperPilot server (src/index.ts), focused on the response
extractor (parseJSONResponse), the venue-profile context mapping
(getProfileContext) and the paper-review orchestration endpoint
(/analyze/review-paper).

Modelling conventions (shallow embedding):
* JavaScript strings are modelled as `List Char`.
* JSON values are modelled by the inductive type `Json`.  JSON numbers are
  modelled as integers (`Int`): the review pipeline only manipulates numeric
  scores, and the fractional/exponent forms of JSON number literals are outside
  the model (the model parser rejects them, see `parseNumAbs`).
* `JSON.parse` is modelled by `parseJson` (a fuel-indexed recursive-descent
  parser over the JSON grammar: whitespace, objects, arrays, strings with
  escapes, integers, literals; full input must be consumed).
  `JSON.stringify` is modelled by `serialize` (no extra whitespace, standard
  escaping, `\u00XX` for control characters, exactly as stringify emits).
* The two regular expressions of parseJSONResponse are modelled operationally:
  both have the shape PRE `\s*([\s\S]*?)\s*` "3 backticks", with a greedy
  leading `\s*`, a lazy capture group and a greedy trailing `\s*`.  For this
  shape the leftmost-match backtracking semantics reduces to: scan left to
  right for the first position where PRE matches and a closing triple backtick
  occurs later; the capture is the shortest segment after the greedily consumed
  whitespace from which the closing marker is reachable through whitespace
  (`matchFence`, `lazyCapture`, `ticksWithinWs` below).
* Upstream OpenAI calls are oracle inputs: each handler run takes the results
  the pending completion calls would settle with (`Except UpstreamError _`).
-/

/-! ## JSON values -/

inductive Json where
  | null : Json
  | bool (b : Bool) : Json
  | num (n : Int) : Json
  | str (s : List Char) : Json
  | arr (elems : List Json) : Json
  | obj (members : List (List Char × Json)) : Json

/-- The backtick character (written via its code so that no backtick appears
in the Lean source outside strings). -/
def btick : Char := Char.ofNat 96

/-- A triple-backtick marker. -/
def tickMark : List Char := [btick, btick, btick]

/-- JavaScript `\s` (ASCII part) and the characters stripped by
`String.prototype.trim`: space, tab, LF, VT, FF, CR. -/
def jsWs (c : Char) : Bool :=
  c = ' ' || c = '\t' || c = '\n' || c = '\x0b' || c = '\x0c' || c = '\r'

/-- JSON (RFC 8259) insignificant whitespace: space, tab, LF, CR. -/
def jsonWs (c : Char) : Bool :=
  c = ' ' || c = '\t' || c = '\n' || c = '\r'

def skipWs (l : List Char) : List Char := l.dropWhile jsonWs

/-! ## Serialization (model of JSON.stringify) -/

def isDigitCh (c : Char) : Bool := 48 ≤ c.toNat && c.toNat ≤ 57

def digitChar : Nat → Char
  | 0 => '0' | 1 => '1' | 2 => '2' | 3 => '3' | 4 => '4'
  | 5 => '5' | 6 => '6' | 7 => '7' | 8 => '8' | 9 => '9'
  | _ => '0'

def hexDigitChar : Nat → Char
  | 10 => 'a' | 11 => 'b' | 12 => 'c' | 13 => 'd' | 14 => 'e' | 15 => 'f'
  | n => digitChar n

def hexVal (c : Char) : Option Nat :=
  if c = '0' then some 0 else if c = '1' then some 1 else if c = '2' then some 2
  else if c = '3' then some 3 else if c = '4' then some 4 else if c = '5' then some 5
  else if c = '6' then some 6 else if c = '7' then some 7 else if c = '8' then some 8
  else if c = '9' then some 9 else if c = 'a' then some 10 else if c = 'b' then some 11
  else if c = 'c' then some 12 else if c = 'd' then some 13 else if c = 'e' then some 14
  else if c = 'f' then some 15 else if c = 'A' then some 10 else if c = 'B' then some 11
  else if c = 'C' then some 12 else if c = 'D' then some 13 else if c = 'E' then some 14
  else if c = 'F' then some 15 else none

/-- Decimal digits of a natural number, most significant first; the first
argument is recursion fuel (`n` itself always suffices). -/
def natToCharsF : Nat → Nat → List Char
  | 0, n => [digitChar n]
  | f + 1, n =>
    if n < 10 then [digitChar n] else natToCharsF f (n / 10) ++ [digitChar (n % 10)]

/-- Decimal digits of a natural number, most significant first. -/
def natToChars (n : Nat) : List Char := natToCharsF n n

/-- `JSON.stringify` for an integer. -/
def serInt (n : Int) : List Char :=
  if n < 0 then '-' :: natToChars n.natAbs else natToChars n.natAbs

/-- How `JSON.stringify` escapes one character inside a string literal. -/
def escapeChar (c : Char) : List Char :=
  if c = '"' then ['\\', '"']
  else if c = '\\' then ['\\', '\\']
  else if c = '\n' then ['\\', 'n']
  else if c = '\t' then ['\\', 't']
  else if c = '\r' then ['\\', 'r']
  else if c = '\x08' then ['\\', 'b']
  else if c = '\x0c' then ['\\', 'f']
  else if c.toNat < 32 then
    ['\\', 'u', '0', '0', hexDigitChar (c.toNat / 16), hexDigitChar (c.toNat % 16)]
  else [c]

def escList : List Char → List Char
  | [] => []
  | c :: s => escapeChar c ++ escList s

/-- `JSON.stringify` for a string (including the surrounding quotes). -/
def serStr (s : List Char) : List Char := '"' :: escList s ++ ['"']

/-- The spelling of the three JSON keyword literals. -/
abbrev litNullKw : List Char := ['n', 'u', 'l', 'l']

abbrev litTrueKw : List Char := ['t', 'r', 'u', 'e']

abbrev litFalseKw : List Char := ['f', 'a', 'l', 's', 'e']

mutual

/-- Model of `JSON.stringify` (compact form, as the code relies on). -/
def serialize : Json → List Char
  | .null => litNullKw
  | .bool true => litTrueKw
  | .bool false => litFalseKw
  | .num n => serInt n
  | .str s => serStr s
  | .arr xs => '[' :: serElemsJ xs ++ [']']
  | .obj kvs => '{' :: serMembersJ kvs ++ ['}']

def serElemsJ : List Json → List Char
  | [] => []
  | [x] => serialize x
  | x :: y :: xs => serialize x ++ ',' :: serElemsJ (y :: xs)

def serMembersJ : List (List Char × Json) → List Char
  | [] => []
  | [(k, v)] => serStr k ++ ':' :: serialize v
  | (k, v) :: m :: ms => serStr k ++ ':' :: serialize v ++ ',' :: serMembersJ (m :: ms)

end

/-! ## Fuel measure for the parser round trip -/

mutual

def jsize : Json → Nat
  | .null => 1
  | .bool _ => 1
  | .num _ => 1
  | .str _ => 1
  | .arr xs => 1 + jsizeElems xs
  | .obj kvs => 1 + jsizeMembers kvs

def jsizeElems : List Json → Nat
  | [] => 0
  | x :: xs => 1 + jsize x + jsizeElems xs

def jsizeMembers : List (List Char × Json) → Nat
  | [] => 0
  | (_, v) :: ms => 1 + jsize v + jsizeMembers ms

end

/-! ## Parsing (model of JSON.parse) -/

def digVal (c : Char) : Nat := c.toNat - 48

/-- Consume a maximal run of decimal digits, accumulating their value. -/
def parseDigits (acc : Nat) : List Char → Nat × List Char
  | [] => (acc, [])
  | c :: r => if isDigitCh c then parseDigits (acc * 10 + digVal c) r else (acc, c :: r)

def digitStart : List Char → Bool
  | c :: _ => isDigitCh c
  | [] => false

def expStart : List Char → Bool
  | c :: _ => c = '.' || c = 'e' || c = 'E'
  | [] => false

/-- Parse an unsigned JSON integer (rejecting leading zeros as JSON.parse does;
fraction/exponent forms are outside the integer model and rejected). -/
def parseNumAbs (l : List Char) : Option (Nat × List Char) :=
  match l with
  | [] => none
  | c :: r =>
    if isDigitCh c then
      if c = '0' && digitStart r then none
      else
        let p := parseDigits 0 (c :: r)
        if expStart p.2 then none else some p
    else none

def parseNumber (l : List Char) : Option (Int × List Char) :=
  match l with
  | '-' :: r => (parseNumAbs r).map (fun p => (-(p.1 : Int), p.2))
  | _ => (parseNumAbs l).map (fun p => ((p.1 : Int), p.2))

def escDecode (e : Char) : Option Char :=
  if e = '"' then some '"'
  else if e = '\\' then some '\\'
  else if e = '/' then some '/'
  else if e = 'n' then some '\n'
  else if e = 't' then some '\t'
  else if e = 'r' then some '\r'
  else if e = 'b' then some '\x08'
  else if e = 'f' then some '\x0c'
  else none

/-- Parse the remainder of a JSON string literal (after the opening quote).
JSON.parse rejects raw control characters inside strings. -/
def parseStringRest : List Char → Option (List Char × List Char)
  | [] => none
  | c :: r =>
    if c = '"' then some ([], r)
    else if c = '\\' then
      match r with
      | [] => none
      | e :: r2 =>
        if e = 'u' then
          match r2 with
          | h1 :: h2 :: h3 :: h4 :: r3 =>
            match hexVal h1, hexVal h2, hexVal h3, hexVal h4 with
            | some a, some b, some c2, some d =>
              (parseStringRest r3).map
                (fun p => (Char.ofNat (a * 4096 + b * 256 + c2 * 16 + d) :: p.1, p.2))
            | _, _, _, _ => none
          | _ => none
        else
          match escDecode e with
          | some d => (parseStringRest r2).map (fun p => (d :: p.1, p.2))
          | none => none
    else if c.toNat < 32 then none
    else (parseStringRest r).map (fun p => (c :: p.1, p.2))

mutual

/-- Parse a JSON value; `fuel` bounds the nesting structure.  The input is
expected to start exactly at the value (leading whitespace already skipped). -/
def parseValue : Nat → List Char → Option (Json × List Char)
  | 0, _ => none
  | _ + 1, [] => none
  | fuel + 1, c :: r =>
    if c = '{' then
      match skipWs r with
      | '}' :: r2 => some (.obj [], r2)
      | r1 => (parseMembers fuel r1).map (fun p => (.obj p.1, p.2))
    else if c = '[' then
      match skipWs r with
      | ']' :: r2 => some (.arr [], r2)
      | r1 => (parseElems fuel r1).map (fun p => (.arr p.1, p.2))
    else if c = '"' then
      (parseStringRest r).map (fun p => (.str p.1, p.2))
    else if c = 'n' then
      if r.take 3 = ['u', 'l', 'l'] then some (.null, r.drop 3) else none
    else if c = 't' then
      if r.take 3 = ['r', 'u', 'e'] then some (.bool true, r.drop 3) else none
    else if c = 'f' then
      if r.take 4 = ['a', 'l', 's', 'e'] then some (.bool false, r.drop 4) else none
    else
      (parseNumber (c :: r)).map (fun p => (.num p.1, p.2))

/-- Parse a non-empty comma-separated element list plus the closing bracket. -/
def parseElems : Nat → List Char → Option (List Json × List Char)
  | 0, _ => none
  | fuel + 1, l =>
    match parseValue fuel l with
    | none => none
    | some (v, r) =>
      match skipWs r with
      | ',' :: r2 =>
        (parseElems fuel (skipWs r2)).map (fun p => (v :: p.1, p.2))
      | ']' :: r2 => some ([v], r2)
      | _ => none

/-- Parse a non-empty object member list plus the closing brace. -/
def parseMembers : Nat → List Char → Option (List (List Char × Json) × List Char)
  | 0, _ => none
  | fuel + 1, l =>
    match l with
    | '"' :: r =>
      match parseStringRest r with
      | none => none
      | some (k, r1) =>
        match skipWs r1 with
        | ':' :: r2 =>
          match parseValue fuel (skipWs r2) with
          | none => none
          | some (v, r3) =>
            match skipWs r3 with
            | ',' :: r4 =>
              (parseMembers fuel (skipWs r4)).map (fun p => ((k, v) :: p.1, p.2))
            | '}' :: r4 => some ([(k, v)], r4)
            | _ => none
        | _ => none
    | _ => none

end

/-- Model of `JSON.parse`: surrounding whitespace allowed, the whole input must
be consumed, result is `none` where JSON.parse throws. -/
def parseJson (l : List Char) : Option Json :=
  let l1 := skipWs l
  match parseValue (l1.length + 1) l1 with
  | some (j, r) => if skipWs r = [] then some j else none
  | none => none

/-! ## The fence-extraction regular expressions of parseJSONResponse

The code tries `text.match` with a json-tagged fence pattern first and falls
back to an untagged fence pattern; each pattern is PRE `\s*([\s\S]*?)\s*` and
a closing triple backtick. -/

/-- Is a triple backtick reachable from here through whitespace only?
(This is where the trailing greedy `\s*` followed by the closing marker can
match, for some backtracked amount of whitespace.) -/
def ticksWithinWs : List Char → Bool
  | [] => false
  | c :: l => tickMark.isPrefixOf (c :: l) || (jsWs c && ticksWithinWs l)

/-- The lazy capture group `([\s\S]*?)`: the shortest prefix after which the
trailing `\s*` and the closing triple backtick can match. -/
def lazyCapture : List Char → Option (List Char)
  | [] => none
  | c :: l =>
    if ticksWithinWs (c :: l) then some []
    else (lazyCapture l).map (fun cap => c :: cap)

/-- Leftmost match of PRE `\s*([\s\S]*?)\s*` + triple backtick against the
text; returns the capture group. -/
def matchFence (pre : List Char) : List Char → Option (List Char)
  | [] => none
  | c :: t =>
    if pre.isPrefixOf (c :: t) then
      match lazyCapture (((c :: t).drop pre.length).dropWhile jsWs) with
      | some cap => some cap
      | none => matchFence pre t
    else matchFence pre t

/-- The pattern of the first regex: a json-tagged opening fence. -/
def fenceJsonPre : List Char := tickMark ++ [ 'j', 's', 'o', 'n' ]

/-- Model of `String.prototype.trim`. -/
def trimStr (l : List Char) : List Char :=
  ((l.dropWhile jsWs).reverse.dropWhile jsWs).reverse

/-- The text parseJSONResponse hands to JSON.parse: the capture of the first
regex that matches, the whole text otherwise (then trimmed). -/
def selectClean (text : List Char) : List Char :=
  match matchFence fenceJsonPre text with
  | some m => m
  | none =>
    match matchFence tickMark text with
    | some m => m
    | none => text

/-- Model of `parseJSONResponse` (src/index.ts lines 66-77): extract a fenced
JSON block if present, parse, and return `fallback` on any parse failure. -/
def parseJSONResponse (text : List Char) (fallback : Json) : Json :=
  match parseJson (trimStr (selectClean text)) with
  | some j => j
  | none => fallback


/-! ## Character-level facts -/

theorem char_eq_of_toNat_eq {a b : Char} (h : a.toNat = b.toNat) : a = b :=
  Char.ext (UInt32.toNat.inj h)

theorem charOfNat_toNat {c : Char} (h : c.toNat < 32) : Char.ofNat c.toNat = c := by
  have hall : ∀ n, n < 32 → (Char.ofNat n).toNat = n := by decide
  exact char_eq_of_toNat_eq (hall c.toNat h)

theorem hexVal_hexDigitChar : ∀ d, d < 16 → hexVal (hexDigitChar d) = some d := by decide

theorem digVal_digitChar : ∀ d, d < 10 → digVal (digitChar d) = d := by decide

theorem isDigitCh_digitChar : ∀ d, d < 10 → isDigitCh (digitChar d) = true := by decide

theorem digitChar_ne_zero : ∀ d, d < 10 → 0 < d → digitChar d ≠ '0' := by decide

theorem digit_toNat_range (c : Char) (h : isDigitCh c = true) :
    48 ≤ c.toNat ∧ c.toNat ≤ 57 := by
  simpa [isDigitCh] using h

theorem digit_ne (c : Char) (h : isDigitCh c = true) :
    ∀ d : Char, d.toNat < 48 ∨ 57 < d.toNat → c ≠ d := by
  intro d hd he
  obtain ⟨h1, h2⟩ := digit_toNat_range c h
  subst he
  omega

theorem digit_not_specials (c : Char) (h : isDigitCh c = true) :
    jsonWs c = false ∧ jsWs c = false ∧ c ≠ ']' ∧ c ≠ '}' ∧ c ≠ '{' ∧ c ≠ '[' ∧
    c ≠ '"' ∧ c ≠ 'n' ∧ c ≠ 't' ∧ c ≠ 'f' ∧ c ≠ '-' ∧ c ≠ ',' := by
  have hne := digit_ne c h
  refine ⟨?_, ?_, hne _ (by decide), hne _ (by decide), hne _ (by decide), hne _ (by decide),
    hne _ (by decide), hne _ (by decide), hne _ (by decide), hne _ (by decide),
    hne _ (by decide), hne _ (by decide)⟩
  · simp [jsonWs, hne ' ' (by decide), hne '\t' (by decide), hne '\n' (by decide),
      hne '\r' (by decide)]
  · simp [jsWs, hne ' ' (by decide), hne '\t' (by decide), hne '\n' (by decide),
      hne '\r' (by decide), hne '\x0b' (by decide), hne '\x0c' (by decide)]

/-! ## Round trip: strings -/

theorem parseStringRest_escList (s : List Char) (r : List Char) :
    parseStringRest (escList s ++ '"' :: r) = some (s, r) := by
  induction s with
  | nil =>
    show parseStringRest ('"' :: r) = _
    rw [parseStringRest.eq_def]
    simp
  | cons c s ih =>
    show parseStringRest ((escapeChar c ++ escList s) ++ '"' :: r) = _
    rw [List.append_assoc]
    by_cases h1 : c = '\"'
    · subst h1
      have hesc : escapeChar '\"' = ['\\', '\"'] := rfl
      rw [hesc]
      simp only [List.cons_append, List.nil_append]
      rw [parseStringRest.eq_def]
      simp [escDecode, ih]
    by_cases h2 : c = '\\'
    · subst h2
      have hesc : escapeChar '\\' = ['\\', '\\'] := rfl
      rw [hesc]
      simp only [List.cons_append, List.nil_append]
      rw [parseStringRest.eq_def]
      simp [escDecode, ih]
    by_cases h3 : c = '\n'
    · subst h3
      have hesc : escapeChar '\n' = ['\\', 'n'] := rfl
      rw [hesc]
      simp only [List.cons_append, List.nil_append]
      rw [parseStringRest.eq_def]
      simp [escDecode, ih]
    by_cases h4 : c = '\t'
    · subst h4
      have hesc : escapeChar '\t' = ['\\', 't'] := rfl
      rw [hesc]
      simp only [List.cons_append, List.nil_append]
      rw [parseStringRest.eq_def]
      simp [escDecode, ih]
    by_cases h5 : c = '\r'
    · subst h5
      have hesc : escapeChar '\r' = ['\\', 'r'] := rfl
      rw [hesc]
      simp only [List.cons_append, List.nil_append]
      rw [parseStringRest.eq_def]
      simp [escDecode, ih]
    by_cases h6 : c = '\x08'
    · subst h6
      have hesc : escapeChar '\x08' = ['\\', 'b'] := rfl
      rw [hesc]
      simp only [List.cons_append, List.nil_append]
      rw [parseStringRest.eq_def]
      simp [escDecode, ih]
    by_cases h7 : c = '\x0c'
    · subst h7
      have hesc : escapeChar '\x0c' = ['\\', 'f'] := rfl
      rw [hesc]
      simp only [List.cons_append, List.nil_append]
      rw [parseStringRest.eq_def]
      simp [escDecode, ih]
    by_cases h8 : c.toNat < 32
    · have hesc : escapeChar c =
          ['\\', 'u', '0', '0', hexDigitChar (c.toNat / 16), hexDigitChar (c.toNat % 16)] := by
        rw [escapeChar, if_neg h1, if_neg h2, if_neg h3, if_neg h4, if_neg h5, if_neg h6,
          if_neg h7, if_pos h8]
      rw [hesc]
      have hv1 : hexVal (hexDigitChar (c.toNat / 16)) = some (c.toNat / 16) :=
        hexVal_hexDigitChar _ (by omega)
      have hv2 : hexVal (hexDigitChar (c.toNat % 16)) = some (c.toNat % 16) :=
        hexVal_hexDigitChar _ (by omega)
      have hcode : c.toNat / 16 * 16 + c.toNat % 16 = c.toNat := by omega
      have hv0 : hexVal '0' = some 0 := rfl
      simp only [List.cons_append, List.nil_append]
      rw [parseStringRest.eq_def]
      simp [hv0, hv1, hv2, hcode, charOfNat_toNat h8, ih]
    · have hesc : escapeChar c = [c] := by
        rw [escapeChar, if_neg h1, if_neg h2, if_neg h3, if_neg h4, if_neg h5, if_neg h6,
          if_neg h7, if_neg h8]
      rw [hesc]
      simp only [List.cons_append, List.nil_append]
      rw [parseStringRest.eq_def]
      simp [h1, h2, h8, ih]

/-! ## Round trip: numbers -/

def pow10 (n : Nat) : Nat :=
  if n < 10 then 10 else pow10 (n / 10) * 10
decreasing_by exact Nat.div_lt_self (by omega) (by omega)

theorem natToCharsF_irrel (n : Nat) : ∀ f g, n ≤ f → n ≤ g →
    natToCharsF f n = natToCharsF g n := by
  induction n using Nat.strong_induction_on with
  | _ n ih =>
    intro f g hf hg
    by_cases h : n < 10
    · cases f <;> cases g <;> simp [natToCharsF, h]
    · have h1 : 0 < f := by omega
      have h2 : 0 < g := by omega
      obtain ⟨f1, rfl⟩ := Nat.exists_eq_succ_of_ne_zero (show f ≠ 0 by omega)
      obtain ⟨g1, rfl⟩ := Nat.exists_eq_succ_of_ne_zero (by omega : g ≠ 0)
      have hdiv : n / 10 < n := Nat.div_lt_self (by omega) (by omega)
      simp only [natToCharsF, if_neg h]
      rw [ih (n / 10) hdiv f1 g1 (by omega) (by omega)]

theorem natToChars_eq (n : Nat) :
    natToChars n = if n < 10 then [digitChar n] else natToChars (n / 10) ++ [digitChar (n % 10)] := by
  by_cases h : n < 10
  · rw [if_pos h]
    unfold natToChars
    cases n <;> simp [natToCharsF, h]
  · rw [if_neg h]
    unfold natToChars
    obtain ⟨m, rfl⟩ := Nat.exists_eq_succ_of_ne_zero (by omega : n ≠ 0)
    simp only [natToCharsF, if_neg h]
    rw [natToCharsF_irrel (((m + 1) : Nat) / 10) m ((m + 1) / 10) (by omega) (le_refl _)]

theorem parseDigits_append (n : Nat) : ∀ acc rest,
    parseDigits acc (natToChars n ++ rest) = parseDigits (acc * pow10 n + n) rest := by
  induction n using Nat.strong_induction_on with
  | _ n ih =>
    intro acc rest
    by_cases h : n < 10
    · rw [natToChars_eq, if_pos h, pow10, if_pos h]
      simp [parseDigits, isDigitCh_digitChar n h, digVal_digitChar n h]
    · rw [natToChars_eq, if_neg h, pow10, if_neg h, List.append_assoc]
      rw [ih (n / 10) (Nat.div_lt_self (by omega) (by omega))]
      have hlt : n % 10 < 10 := Nat.mod_lt _ (by omega)
      show parseDigits _ (digitChar (n % 10) :: rest) = _
      rw [parseDigits, if_pos (isDigitCh_digitChar _ hlt), digVal_digitChar _ hlt]
      congr 1
      calc (acc * pow10 (n / 10) + n / 10) * 10 + n % 10
          = acc * (pow10 (n / 10) * 10) + (10 * (n / 10) + n % 10) := by ring
        _ = acc * (pow10 (n / 10) * 10) + n := by rw [Nat.div_add_mod]

theorem parseDigits_stop (acc : Nat) (rest : List Char) (h : digitStart rest = false) :
    parseDigits acc rest = (acc, rest) := by
  cases rest with
  | nil => rfl
  | cons c r =>
    simp only [digitStart] at h
    simp [parseDigits, h]

theorem natToChars_head (n : Nat) :
    ∃ c cs, natToChars n = c :: cs ∧ isDigitCh c = true ∧ (0 < n → c ≠ '0') := by
  induction n using Nat.strong_induction_on with
  | _ n ih =>
    by_cases h : n < 10
    · refine ⟨digitChar n, [], by rw [natToChars_eq, if_pos h], isDigitCh_digitChar n h, ?_⟩
      intro hp
      exact digitChar_ne_zero n h hp
    · obtain ⟨c, cs, hc, hd, hz⟩ := ih (n / 10) (Nat.div_lt_self (by omega) (by omega))
      refine ⟨c, cs ++ [digitChar (n % 10)], ?_, hd, fun _ => hz (by omega)⟩
      rw [natToChars_eq, if_neg h, hc]
      rfl

theorem parseNumAbs_natToChars (n : Nat) (rest : List Char)
    (h1 : digitStart rest = false) (h2 : expStart rest = false) :
    parseNumAbs (natToChars n ++ rest) = some (n, rest) := by
  have hpd : parseDigits 0 (natToChars n ++ rest) = (n, rest) := by
    rw [parseDigits_append, parseDigits_stop _ rest h1]
    simp
  obtain ⟨c, cs, hc, hd, hz⟩ := natToChars_head n
  rw [hc] at hpd ⊢
  rw [List.cons_append] at hpd ⊢
  rw [parseNumAbs.eq_def]
  simp only []
  rw [if_pos hd]
  have hzc : (c = '0' && digitStart (cs ++ rest)) = false := by
    rcases Nat.eq_zero_or_pos n with hn0 | hnp
    · subst hn0
      have hz0 : natToChars 0 = ['0'] := by rw [natToChars_eq]; rfl
      rw [hz0] at hc
      cases hc
      simpa using h1
    · simp [hz hnp]
  rw [hzc]
  simp only [Bool.false_eq_true, if_false, hpd, h2, if_false]

theorem parseNumber_serInt (n : Int) (rest : List Char)
    (h1 : digitStart rest = false) (h2 : expStart rest = false) :
    parseNumber (serInt n ++ rest) = some (n, rest) := by
  by_cases hneg : n < 0
  · rw [serInt, if_pos hneg, List.cons_append]
    show (parseNumAbs (natToChars n.natAbs ++ rest)).map
      (fun p => (-(p.1 : Int), p.2)) = some (n, rest)
    rw [parseNumAbs_natToChars _ rest h1 h2]
    rw [Option.map_some']
    have habs : -((n.natAbs : Nat) : Int) = n := by omega
    rw [Option.some.injEq, Prod.mk.injEq]
    exact ⟨habs, rfl⟩
  · rw [serInt, if_neg hneg]
    obtain ⟨c, cs, hc, hd, hz⟩ := natToChars_head n.natAbs
    rw [hc, List.cons_append, parseNumber.eq_def]
    have hne : c ≠ '-' := (digit_not_specials c hd).2.2.2.2.2.2.2.2.2.2.1
    split
    · rename_i heq
      rw [List.cons_eq_cons] at heq
      exact absurd heq.1 hne
    · rw [← List.cons_append, ← hc, parseNumAbs_natToChars _ rest h1 h2]
      rw [Option.map_some']
      have habs : ((n.natAbs : Nat) : Int) = n := by omega
      rw [Option.some.injEq, Prod.mk.injEq]
      exact ⟨habs, rfl⟩

/-! ## Round trip: values -/

theorem skipWs_cons_nonws (c : Char) (l : List Char) (h : jsonWs c = false) :
    skipWs (c :: l) = c :: l := by
  simp [skipWs, List.dropWhile_cons, h]

theorem jsize_pos (j : Json) : 1 ≤ jsize j := by
  cases j <;> simp [jsize]

theorem jsizeElems_pos (xs : List Json) (h : xs ≠ []) : 1 ≤ jsizeElems xs := by
  cases xs with
  | nil => exact absurd rfl h
  | cons x xs => simp [jsizeElems]; omega

theorem jsizeMembers_pos (kvs : List (List Char × Json)) (h : kvs ≠ []) :
    1 ≤ jsizeMembers kvs := by
  cases kvs with
  | nil => exact absurd rfl h
  | cons kv ms => cases kv; simp [jsizeMembers]; omega

theorem serElemsJ_cons (x : Json) (xs : List Json) :
    ∃ t, serElemsJ (x :: xs) = serialize x ++ t := by
  cases xs with
  | nil => exact ⟨[], by simp [serElemsJ]⟩
  | cons y ys => exact ⟨',' :: serElemsJ (y :: ys), by simp [serElemsJ]⟩

theorem serialize_head (j : Json) :
    ∃ c cs, serialize j = c :: cs ∧ jsonWs c = false ∧ c ≠ ']' ∧ c ≠ '}' ∧ c ≠ ',' ∧
      jsWs c = false := by
  cases j with
  | null =>
    exact ⟨'n', ['u', 'l', 'l'], by simp [serialize], by decide, by decide, by decide, by decide,
      by decide⟩
  | bool b =>
    cases b with
    | true =>
      exact ⟨'t', ['r', 'u', 'e'], by simp [serialize], by decide, by decide, by decide, by decide,
        by decide⟩
    | false =>
      exact ⟨'f', ['a', 'l', 's', 'e'], by simp [serialize], by decide, by decide, by decide,
        by decide, by decide⟩
  | num n =>
    by_cases hneg : n < 0
    · exact ⟨'-', natToChars n.natAbs, by simp [serialize, serInt, if_pos hneg], by decide,
        by decide, by decide, by decide, by decide⟩
    · obtain ⟨c, cs, hc, hd, _⟩ := natToChars_head n.natAbs
      obtain ⟨w1, wj, w3, w4, _, _, _, _, _, _, _, w12⟩ := digit_not_specials c hd
      exact ⟨c, cs, by simp [serialize, serInt, if_neg hneg, hc], w1, w3, w4, w12, wj⟩
  | str s =>
    exact ⟨'"', escList s ++ ['"'], by simp [serialize, serStr], by decide, by decide, by decide,
      by decide, by decide⟩
  | arr xs =>
    exact ⟨'[', serElemsJ xs ++ [']'], by simp [serialize], by decide, by decide, by decide,
      by decide, by decide⟩
  | obj kvs =>
    exact ⟨'{', serMembersJ kvs ++ ['}'], by simp [serialize], by decide, by decide, by decide,
      by decide, by decide⟩

theorem serMembersJ_cons (k : List Char) (v : Json) (ms : List (List Char × Json)) :
    ∃ t, serMembersJ ((k, v) :: ms) = serStr k ++ t := by
  cases ms with
  | nil => exact ⟨':' :: serialize v, by simp [serMembersJ]⟩
  | cons m ms' =>
    exact ⟨':' :: (serialize v ++ (',' :: serMembersJ (m :: ms'))),
      by simp [serMembersJ, List.append_assoc, List.cons_append]⟩

theorem skipWs_serialize_append (v : Json) (tail : List Char) :
    skipWs (serialize v ++ tail) = serialize v ++ tail := by
  obtain ⟨c, cs, hc, w1, _, _, _, _⟩ := serialize_head v
  rw [hc, List.cons_append]
  exact skipWs_cons_nonws _ _ w1

theorem skipWs_serElemsJ_append (x : Json) (xs : List Json) (tail : List Char) :
    skipWs (serElemsJ (x :: xs) ++ tail) = serElemsJ (x :: xs) ++ tail := by
  obtain ⟨t, ht⟩ := serElemsJ_cons x xs
  rw [ht, List.append_assoc, skipWs_serialize_append, ← List.append_assoc]

theorem serialize_append_ne_cons (x : Json) (tail r2 : List Char) (b : Char)
    (hb : b = ']' ∨ b = '}' ∨ b = ',') : serialize x ++ tail ≠ b :: r2 := by
  obtain ⟨c, cs, hc, _, w2, w3, w4, _⟩ := serialize_head x
  rw [hc, List.cons_append]
  intro heq
  have hcb : c = b := (List.cons_eq_cons.mp heq).1
  rcases hb with hb | hb | hb <;> (subst hb; subst hcb)
  · exact w2 rfl
  · exact w3 rfl
  · exact w4 rfl

theorem serElemsJ_append_ne_cons (x : Json) (xs : List Json) (tail r2 : List Char) (b : Char)
    (hb : b = ']' ∨ b = '}' ∨ b = ',') : serElemsJ (x :: xs) ++ tail ≠ b :: r2 := by
  obtain ⟨t, ht⟩ := serElemsJ_cons x xs
  rw [ht, List.append_assoc]
  exact serialize_append_ne_cons x _ r2 b hb

theorem skipWs_serMembersJ_append (k : List Char) (v : Json) (ms : List (List Char × Json))
    (tail : List Char) :
    skipWs (serMembersJ ((k, v) :: ms) ++ tail) = serMembersJ ((k, v) :: ms) ++ tail := by
  obtain ⟨t, ht⟩ := serMembersJ_cons k v ms
  rw [ht, serStr]
  simp only [List.cons_append, List.append_assoc]
  exact skipWs_cons_nonws _ _ (by decide)

theorem serMembersJ_append_ne_cons (k : List Char) (v : Json) (ms : List (List Char × Json))
    (tail r2 : List Char) (b : Char) (hb : b ≠ '"') :
    serMembersJ ((k, v) :: ms) ++ tail ≠ b :: r2 := by
  obtain ⟨t, ht⟩ := serMembersJ_cons k v ms
  rw [ht, serStr]
  simp only [List.cons_append, List.append_assoc]
  intro heq
  exact hb ((List.cons_eq_cons.mp heq).1).symm

theorem parseElems_step (fuel : Nat) (l : List Char) :
    parseElems (fuel + 1) l =
      match parseValue fuel l with
      | none => none
      | some (v, r) =>
        match skipWs r with
        | ',' :: r2 => (parseElems fuel (skipWs r2)).map (fun p => (v :: p.1, p.2))
        | ']' :: r2 => some ([v], r2)
        | _ => none := rfl

theorem digitStart_cons_false (c : Char) (l : List Char) (h : isDigitCh c = false) :
    digitStart (c :: l) = false := h

theorem expStart_cons_false (c : Char) (l : List Char) (h2 : c ≠ '.') (h3 : c ≠ 'e')
    (h4 : c ≠ 'E') : expStart (c :: l) = false := by
  simp [expStart, h2, h3, h4]

theorem parse_rt_all (fuel : Nat) :
    (∀ j rest, jsize j ≤ fuel → digitStart rest = false → expStart rest = false →
      parseValue fuel (serialize j ++ rest) = some (j, rest)) ∧
    (∀ xs rest, xs ≠ [] → jsizeElems xs ≤ fuel →
      parseElems fuel (serElemsJ xs ++ ']' :: rest) = some (xs, rest)) ∧
    (∀ kvs rest, kvs ≠ [] → jsizeMembers kvs ≤ fuel →
      parseMembers fuel (serMembersJ kvs ++ '}' :: rest) = some (kvs, rest)) := by
  induction fuel with
  | zero =>
    refine ⟨fun j rest hsz _ _ => absurd hsz (by have := jsize_pos j; omega),
      fun xs rest hne hsz => absurd hsz (by have := jsizeElems_pos xs hne; omega),
      fun kvs rest hne hsz => absurd hsz (by have := jsizeMembers_pos kvs hne; omega)⟩
  | succ fuel ih =>
    obtain ⟨ihV, ihE, ihM⟩ := ih
    refine ⟨?_, ?_, ?_⟩
    · -- values
      intro j rest hsz hd1 hd2
      cases j with
      | null =>
        show parseValue (fuel + 1) ('n' :: 'u' :: 'l' :: 'l' :: rest) = _
        rw [parseValue.eq_def]
        simp
      | bool b =>
        cases b with
        | true =>
          show parseValue (fuel + 1) ('t' :: 'r' :: 'u' :: 'e' :: rest) = _
          rw [parseValue.eq_def]
          simp
        | false =>
          show parseValue (fuel + 1) ('f' :: 'a' :: 'l' :: 's' :: 'e' :: rest) = _
          rw [parseValue.eq_def]
          simp
      | num n =>
        show parseValue (fuel + 1) (serInt n ++ rest) = _
        have hpn := parseNumber_serInt n rest hd1 hd2
        by_cases hneg : n < 0
        · rw [serInt, if_pos hneg, List.cons_append] at hpn ⊢
          rw [parseValue.eq_def]
          simp [hpn]
        · obtain ⟨c, cs, hc, hdg, _⟩ := natToChars_head n.natAbs
          have hser : serInt n = c :: cs := by rw [serInt, if_neg hneg, hc]
          obtain ⟨_, _, _, _, n5, n6, n7, n8, n9, n10, _, _⟩ := digit_not_specials c hdg
          rw [hser, List.cons_append] at hpn ⊢
          rw [parseValue.eq_def]
          simp [n5, n6, n7, n8, n9, n10, hpn]
      | str s =>
        show parseValue (fuel + 1) ('"' :: ((escList s ++ ['"']) ++ rest)) = _
        rw [List.append_assoc, List.singleton_append, parseValue.eq_def]
        simp [parseStringRest_escList]
      | arr xs =>
        cases xs with
        | nil =>
          show parseValue (fuel + 1) ('[' :: ']' :: rest) = _
          rw [parseValue.eq_def]
          simp [skipWs, List.dropWhile_cons, jsonWs]
        | cons x xs' =>
          show parseValue (fuel + 1) ('[' :: ((serElemsJ (x :: xs') ++ [']']) ++ rest)) = _
          rw [List.append_assoc, List.singleton_append, parseValue.eq_def]
          have hsz' : jsizeElems (x :: xs') ≤ fuel := by
            simp only [jsize] at hsz
            omega
          simp only [skipWs_serElemsJ_append]
          simp
          split
          · rename_i r2 heq
            exact absurd heq (serElemsJ_append_ne_cons x xs' _ r2 ']' (Or.inl rfl))
          · rw [ihE (x :: xs') rest (by simp) hsz']
            rfl
      | obj kvs =>
        cases kvs with
        | nil =>
          show parseValue (fuel + 1) ('{' :: '}' :: rest) = _
          rw [parseValue.eq_def]
          simp [skipWs, List.dropWhile_cons, jsonWs]
        | cons kv ms =>
          obtain ⟨k, v⟩ := kv
          show parseValue (fuel + 1) ('{' :: ((serMembersJ ((k, v) :: ms) ++ ['}']) ++ rest)) = _
          rw [List.append_assoc, List.singleton_append, parseValue.eq_def]
          have hsz' : jsizeMembers ((k, v) :: ms) ≤ fuel := by
            simp only [jsize] at hsz
            omega
          simp only [skipWs_serMembersJ_append]
          simp
          split
          · rename_i r2 heq
            exact absurd heq (serMembersJ_append_ne_cons k v ms _ r2 '}' (by decide))
          · rw [ihM ((k, v) :: ms) rest (by simp) hsz']
            rfl
    · -- element lists
      intro xs rest hne hsz
      cases xs with
      | nil => exact absurd rfl hne
      | cons x xs' =>
        cases xs' with
        | nil =>
          show parseElems (fuel + 1) (serialize x ++ ']' :: rest) = _
          have hszx : jsize x ≤ fuel := by
            simp only [jsizeElems] at hsz
            omega
          rw [parseElems.eq_def]
          simp [skipWs_cons_nonws, jsonWs,
            ihV x (']' :: rest) hszx (digitStart_cons_false _ _ (by decide))
              (expStart_cons_false _ _ (by decide) (by decide) (by decide))]
        | cons y ys =>
          show parseElems (fuel + 1)
            ((serialize x ++ (',' :: serElemsJ (y :: ys))) ++ ']' :: rest) = _
          rw [List.append_assoc, List.cons_append]
          have hszx : jsize x ≤ fuel := by
            simp only [jsizeElems] at hsz
            omega
          have hszy : jsizeElems (y :: ys) ≤ fuel := by
            simp only [jsizeElems] at hsz ⊢
            omega
          rw [parseElems.eq_def]
          simp [skipWs_cons_nonws, jsonWs, skipWs_serElemsJ_append,
            ihV x (',' :: (serElemsJ (y :: ys) ++ ']' :: rest)) hszx
              (digitStart_cons_false _ _ (by decide))
              (expStart_cons_false _ _ (by decide) (by decide) (by decide)),
            ihE (y :: ys) rest (by simp) hszy]
    · -- member lists
      intro kvs rest hne hsz
      cases kvs with
      | nil => exact absurd rfl hne
      | cons kv ms =>
        obtain ⟨k, v⟩ := kv
        cases ms with
        | nil =>
          show parseMembers (fuel + 1) ((serStr k ++ (':' :: serialize v)) ++ '}' :: rest) = _
          rw [List.append_assoc, List.cons_append, serStr]
          simp only [List.cons_append, List.append_assoc, List.singleton_append, List.nil_append]
          have hszv : jsize v ≤ fuel := by
            simp only [jsizeMembers] at hsz
            omega
          rw [parseMembers.eq_def]
          simp [parseStringRest_escList, skipWs_cons_nonws, jsonWs, skipWs_serialize_append,
            ihV v ('}' :: rest) hszv (digitStart_cons_false _ _ (by decide))
              (expStart_cons_false _ _ (by decide) (by decide) (by decide))]
        | cons m ms' =>
          have hser : serMembersJ ((k, v) :: m :: ms') =
              serStr k ++ ((':' :: serialize v) ++ (',' :: serMembersJ (m :: ms'))) := by
            simp [serMembersJ, List.append_assoc, List.cons_append]
          rw [hser, List.append_assoc, serStr]
          simp only [List.cons_append, List.append_assoc, List.singleton_append, List.nil_append]
          have hszv : jsize v ≤ fuel := by
            simp only [jsizeMembers] at hsz
            omega
          have hszm : jsizeMembers (m :: ms') ≤ fuel := by
            simp only [jsizeMembers] at hsz ⊢
            omega
          rw [parseMembers.eq_def]
          simp only [parseStringRest_escList]
          simp only [skipWs_cons_nonws _ _ (show jsonWs ':' = false from by decide)]
          rw [skipWs_serialize_append]
          rw [ihV v (',' :: (serMembersJ (m :: ms') ++ '}' :: rest)) hszv
            (digitStart_cons_false _ _ (by decide))
            (expStart_cons_false _ _ (by decide) (by decide) (by decide))]
          simp only [skipWs_cons_nonws _ _ (show jsonWs ',' = false from by decide)]
          rw [skipWs_serMembersJ_append]
          rw [ihM (m :: ms') rest (by simp) hszm]
          rfl

/-! ## Top-level round trip -/

/-- Nested induction principle for `Json`. -/
theorem json_ind (P : Json → Prop) (hnull : P .null) (hbool : ∀ b, P (.bool b))
    (hnum : ∀ n, P (.num n)) (hstr : ∀ s, P (.str s))
    (harr : ∀ xs, (∀ x ∈ xs, P x) → P (.arr xs))
    (hobj : ∀ kvs, (∀ kv ∈ kvs, P kv.2) → P (.obj kvs)) : ∀ j, P j
  | .null => hnull
  | .bool b => hbool b
  | .num n => hnum n
  | .str s => hstr s
  | .arr xs => harr xs (fun x hx =>
      json_ind P hnull hbool hnum hstr harr hobj x)
  | .obj kvs => hobj kvs (fun kv hkv =>
      json_ind P hnull hbool hnum hstr harr hobj kv.2)
termination_by j => sizeOf j
decreasing_by
  · have h1 := List.sizeOf_lt_of_mem hx
    simp only [Json.arr.sizeOf_spec]
    omega
  · have h1 := List.sizeOf_lt_of_mem hkv
    obtain ⟨a, b⟩ := kv
    simp only [Json.obj.sizeOf_spec]
    simp only [Prod.mk.sizeOf_spec] at h1
    omega


theorem jsize_le_len (j : Json) : jsize j ≤ (serialize j).length := by
  induction j using json_ind with
  | hnull => simp [jsize, serialize]
  | hbool b => cases b <;> simp [jsize, serialize]
  | hnum n =>
    have h1 : jsize (Json.num n) = 1 := rfl
    have h2 : 1 ≤ (serialize (Json.num n)).length := by
      obtain ⟨c, cs, hc, _⟩ := serialize_head (Json.num n)
      rw [hc]
      simp
    omega
  | hstr s =>
    have h1 : jsize (Json.str s) = 1 := rfl
    simp [serialize, serStr]
    omega
  | harr xs ihxs =>
    have helems : jsizeElems xs ≤ (serElemsJ xs).length + 1 := by
      induction xs with
      | nil => simp [jsizeElems, serElemsJ]
      | cons x xs ihtail =>
        cases xs with
        | nil =>
          have hx := ihxs x (by simp)
          have h1 : jsizeElems [x] = 1 + jsize x + 0 := rfl
          have h2 : serElemsJ [x] = serialize x := by simp [serElemsJ]
          rw [h1, h2]
          omega
        | cons y ys =>
          have hx := ihxs x (by simp)
          have htail := ihtail (fun z hz => ihxs z (by simp [hz]))
          have h1 : jsizeElems (x :: y :: ys) = 1 + jsize x + jsizeElems (y :: ys) := rfl
          have h2 : serElemsJ (x :: y :: ys) = serialize x ++ ',' :: serElemsJ (y :: ys) := by
            simp [serElemsJ]
          rw [h1, h2]
          simp only [List.length_append, List.length_cons]
          omega
    have h1 : jsize (Json.arr xs) = 1 + jsizeElems xs := rfl
    have h2 : serialize (Json.arr xs) = '[' :: (serElemsJ xs ++ [']']) := by simp [serialize]
    rw [h1, h2]
    simp only [List.length_cons, List.length_append, List.length_singleton]
    omega
  | hobj kvs ihkvs =>
    have hmems : jsizeMembers kvs ≤ (serMembersJ kvs).length + 1 := by
      induction kvs with
      | nil => simp [jsizeMembers, serMembersJ]
      | cons kv ms ihtail =>
        obtain ⟨k, v⟩ := kv
        cases ms with
        | nil =>
          have hv := ihkvs (k, v) (by simp)
          have h1 : jsizeMembers [(k, v)] = 1 + jsize v + 0 := rfl
          have h2 : serMembersJ [(k, v)] = serStr k ++ ':' :: serialize v := by
            simp [serMembersJ]
          rw [h1, h2]
          simp only [List.length_append, List.length_cons]
          simp only [] at hv
          omega
        | cons m ms' =>
          have hv := ihkvs (k, v) (by simp)
          have htail := ihtail (fun z hz => ihkvs z (by simp [hz]))
          have h1 : jsizeMembers ((k, v) :: m :: ms') = 1 + jsize v + jsizeMembers (m :: ms') :=
            rfl
          have h2 : serMembersJ ((k, v) :: m :: ms') =
              serStr k ++ ((':' :: serialize v) ++ (',' :: serMembersJ (m :: ms'))) := by
            simp [serMembersJ, List.append_assoc, List.cons_append]
          rw [h1, h2]
          simp only [List.length_append, List.length_cons]
          simp only [] at hv
          omega
    have h1 : jsize (Json.obj kvs) = 1 + jsizeMembers kvs := rfl
    have h2 : serialize (Json.obj kvs) = '{' :: (serMembersJ kvs ++ ['}']) := by simp [serialize]
    rw [h1, h2]
    simp only [List.length_cons, List.length_append, List.length_singleton]
    omega

theorem parseJson_serialize (j : Json) : parseJson (serialize j) = some j := by
  obtain ⟨c, cs, hc, w1, _⟩ := serialize_head j
  have hskip : skipWs (serialize j) = serialize j := by
    rw [hc]
    exact skipWs_cons_nonws _ _ w1
  have hrt := (parse_rt_all ((serialize j).length + 1)).1 j []
    (le_trans (jsize_le_len j) (by omega)) rfl rfl
  rw [List.append_nil] at hrt
  unfold parseJson
  simp only [hskip, hrt]
  rfl

/-! ## Fence matching lemmas -/

/-- Does `pat` occur as a contiguous substring? -/
def occursIn (pat : List Char) : List Char → Bool
  | [] => pat.isEmpty
  | c :: l => pat.isPrefixOf (c :: l) || occursIn pat l

theorem occursIn_cons (pat : List Char) (c : Char) (l : List Char) :
    occursIn pat (c :: l) = (pat.isPrefixOf (c :: l) || occursIn pat l) := by
  rw [occursIn]

def headWs : List Char → Bool
  | [] => false
  | c :: _ => jsWs c

def lastWs : List Char → Bool
  | [] => false
  | [c] => jsWs c
  | _ :: c :: l => lastWs (c :: l)

theorem isPrefixOf_append_self (p l : List Char) : p.isPrefixOf (p ++ l) = true := by
  induction p with
  | nil => simp [List.isPrefixOf]
  | cons c p ih => simp [List.isPrefixOf, ih]

theorem matchFence_cons_eq (pre : List Char) (c : Char) (t : List Char) :
    matchFence pre (c :: t) =
      if pre.isPrefixOf (c :: t) then
        (match lazyCapture (((c :: t).drop pre.length).dropWhile jsWs) with
         | some cap => some cap
         | none => matchFence pre t)
      else matchFence pre t := by
  rw [matchFence.eq_def]

theorem matchFence_skip_char (pre : List Char) (c : Char) (t : List Char)
    (h : pre.isPrefixOf (c :: t) = false) : matchFence pre (c :: t) = matchFence pre t := by
  rw [matchFence_cons_eq, if_neg (by simp [h])]

theorem matchFence_start (pre rest cap : List Char) (hne : pre ≠ [])
    (hcap : lazyCapture (rest.dropWhile jsWs) = some cap) :
    matchFence pre (pre ++ rest) = some cap := by
  obtain ⟨p0, pre', rfl⟩ : ∃ p0 pre', pre = p0 :: pre' := by
    cases pre with
    | nil => exact absurd rfl hne
    | cons a b => exact ⟨a, b, rfl⟩
  rw [List.cons_append, matchFence_cons_eq, ← List.cons_append,
    if_pos (isPrefixOf_append_self (p0 :: pre') rest), List.drop_left, hcap]

theorem matchFence_skip_tails (pre P T : List Char)
    (h : ∀ sfx, sfx <:+ P → sfx ≠ [] → pre.isPrefixOf (sfx ++ T) = false) :
    matchFence pre (P ++ T) = matchFence pre T := by
  induction P with
  | nil => rfl
  | cons c P' ih =>
    have h1 : pre.isPrefixOf ((c :: P') ++ T) = false :=
      h (c :: P') (List.suffix_refl _) (by simp)
    rw [List.cons_append] at h1
    rw [List.cons_append, matchFence_skip_char _ _ _ h1]
    exact ih (fun sfx hs hne => h sfx (hs.trans (List.suffix_cons c P')) hne)

theorem matchFence_none_of_not_occurs (pre t : List Char) (h : occursIn pre t = false) :
    matchFence pre t = none := by
  induction t with
  | nil => rfl
  | cons c t' ih =>
    rw [occursIn_cons, Bool.or_eq_false_iff] at h
    rw [matchFence_skip_char _ _ _ h.1]
    exact ih h.2

theorem isPrefixOf_of_prefix_isPrefixOf (p1 p2 l : List Char) (h12 : p1 <+: p2)
    (h2 : p2.isPrefixOf l = true) : p1.isPrefixOf l = true := by
  rw [List.isPrefixOf_iff_prefix] at h2 ⊢
  exact h12.trans h2

theorem occursIn_false_of_prefix (p1 p2 t : List Char) (h12 : p1 <+: p2) (hp1 : p1 ≠ [])
    (h : occursIn p1 t = false) : occursIn p2 t = false := by
  induction t with
  | nil =>
    simp only [occursIn] at h ⊢
    cases p2 with
    | nil => exact absurd (List.prefix_nil.mp h12) hp1
    | cons a b => rfl
  | cons c t' ih =>
    rw [occursIn_cons, Bool.or_eq_false_iff] at h
    rw [occursIn_cons, Bool.or_eq_false_iff]
    refine ⟨?_, ih h.2⟩
    by_contra hb
    rw [Bool.not_eq_false] at hb
    exact absurd (isPrefixOf_of_prefix_isPrefixOf p1 p2 _ h12 hb) (by simp [h.1])

theorem ticks_not_prefix_junction (S T : List Char) (h : occursIn tickMark S = false) :
    tickMark.isPrefixOf (S ++ '\n' :: T) = false := by
  have hb : (btick == '\n') = false := by decide
  match S with
  | [] => simp [tickMark, List.isPrefixOf, hb]
  | [a] => simp [tickMark, List.isPrefixOf, hb]
  | [a, a2] => simp [tickMark, List.isPrefixOf, hb]
  | a :: a2 :: a3 :: S3 =>
    rw [occursIn_cons, Bool.or_eq_false_iff] at h
    have h1 := h.1
    simp only [tickMark, List.isPrefixOf, Bool.and_eq_false_iff] at h1 ⊢
    rcases h1 with h1 | h1
    · exact Or.inl h1
    rcases h1 with h1 | h1
    · exact Or.inr (Or.inl h1)
    rcases h1 with h1 | h1
    · exact Or.inr (Or.inr (Or.inl h1))
    · simp at h1

theorem ticksWithinWs_append_false (S : List Char) (T : List Char)
    (hocc : occursIn tickMark S = false) (hlast : lastWs S = false) (hne : S ≠ []) :
    ticksWithinWs (S ++ '\n' :: T) = false := by
  induction S with
  | nil => exact absurd rfl hne
  | cons a S' ih =>
    have hpre : tickMark.isPrefixOf ((a :: S') ++ '\n' :: T) = false :=
      ticks_not_prefix_junction (a :: S') T hocc
    rw [List.cons_append] at hpre ⊢
    rw [ticksWithinWs, hpre]
    cases S' with
    | nil =>
      have hl : jsWs a = false := hlast
      simp [hl]
    | cons a2 S'' =>
      have hocc' : occursIn tickMark (a2 :: S'') = false := by
        rw [occursIn_cons, Bool.or_eq_false_iff] at hocc
        exact hocc.2
      have hlast' : lastWs (a2 :: S'') = false := hlast
      rw [ih hocc' hlast' (by simp)]
      simp

theorem lazyCapture_fence (S R : List Char) (hocc : occursIn tickMark S = false)
    (hlast : lastWs S = false) :
    lazyCapture (S ++ '\n' :: (tickMark ++ R)) = some S := by
  induction S with
  | nil =>
    have hp : tickMark.isPrefixOf (tickMark ++ R) = true := isPrefixOf_append_self _ _
    rw [List.nil_append, lazyCapture]
    have h2 : ticksWithinWs (tickMark ++ R) = true := by
      have hm : tickMark ++ R = btick :: (btick :: btick :: R) := by simp [tickMark]
      rw [hm, ticksWithinWs, ← hm, hp]
      simp
    have hts : ticksWithinWs ('\n' :: (tickMark ++ R)) = true := by
      rw [ticksWithinWs, h2]
      simp [jsWs]
    rw [hts]
    simp
  | cons a S' ih =>
    have hts : ticksWithinWs ((a :: S') ++ '\n' :: (tickMark ++ R)) = false :=
      ticksWithinWs_append_false (a :: S') _ hocc hlast (by simp)
    rw [List.cons_append] at hts ⊢
    rw [lazyCapture, hts]
    have hocc' : occursIn tickMark S' = false := by
      rw [occursIn_cons, Bool.or_eq_false_iff] at hocc
      exact hocc.2
    have hlast' : lastWs S' = false := by
      cases S' with
      | nil => rfl
      | cons a2 S'' => exact hlast
    rw [ih hocc' hlast']
    simp

/-! ## Trim lemmas -/

theorem dropWhile_headWs (l : List Char) (h : headWs l = false) : l.dropWhile jsWs = l := by
  cases l with
  | nil => rfl
  | cons c t =>
    have hc : jsWs c = false := h
    simp [List.dropWhile_cons, hc]

theorem lastWs_append_singleton (X : List Char) (c : Char) : lastWs (X ++ [c]) = jsWs c := by
  induction X with
  | nil => rfl
  | cons a X' ih =>
    cases X' with
    | nil => exact ih
    | cons b X'' => exact ih

theorem headWs_reverse (l : List Char) : headWs l.reverse = lastWs l := by
  induction l with
  | nil => rfl
  | cons a l' ih =>
    cases l' with
    | nil => rfl
    | cons b l'' =>
      rw [List.reverse_cons]
      show headWs (List.reverse (b :: l'') ++ [a]) = lastWs (a :: b :: l'')
      have h2 : lastWs (a :: b :: l'') = lastWs (b :: l'') := rfl
      rw [h2, ← ih]
      cases hr : (b :: l'').reverse with
      | nil => simp at hr
      | cons x xs => rw [List.cons_append]; rfl

theorem trimStr_id (l : List Char) (hh : headWs l = false) (hl : lastWs l = false) :
    trimStr l = l := by
  unfold trimStr
  rw [dropWhile_headWs l hh, dropWhile_headWs l.reverse (by rw [headWs_reverse]; exact hl),
    List.reverse_reverse]

/-! ## Serializer boundary characters -/

theorem natToChars_last (n : Nat) :
    ∃ ds d, natToChars n = ds ++ [d] ∧ isDigitCh d = true := by
  rw [natToChars_eq]
  by_cases h : n < 10
  · exact ⟨[], digitChar n, by simp [h], isDigitCh_digitChar _ h⟩
  · exact ⟨natToChars (n / 10), digitChar (n % 10), by simp [h],
      isDigitCh_digitChar _ (Nat.mod_lt _ (by omega))⟩

theorem serialize_last (j : Json) : ∃ cs c, serialize j = cs ++ [c] ∧ jsWs c = false := by
  cases j with
  | null => exact ⟨['n', 'u', 'l'], 'l', by simp [serialize], by decide⟩
  | bool b =>
    cases b with
    | true => exact ⟨['t', 'r', 'u'], 'e', by simp [serialize], by decide⟩
    | false => exact ⟨['f', 'a', 'l', 's'], 'e', by simp [serialize], by decide⟩
  | num n =>
    obtain ⟨ds, d, hd, hdig⟩ := natToChars_last n.natAbs
    by_cases hneg : n < 0
    · exact ⟨'-' :: ds, d, by simp [serialize, serInt, if_pos hneg, hd], 
        (digit_not_specials d hdig).2.1⟩
    · exact ⟨ds, d, by simp [serialize, serInt, if_neg hneg, hd],
        (digit_not_specials d hdig).2.1⟩
  | str s => exact ⟨'"' :: escList s, '"', by simp [serialize, serStr], by decide⟩
  | arr xs => exact ⟨'[' :: serElemsJ xs, ']', by simp [serialize], by decide⟩
  | obj kvs => exact ⟨'{' :: serMembersJ kvs, '}', by simp [serialize], by decide⟩

theorem serialize_headWs (j : Json) : headWs (serialize j) = false := by
  obtain ⟨c, cs, hc, _, _, _, _, hw⟩ := serialize_head j
  rw [hc]
  exact hw

theorem serialize_lastWs (j : Json) : lastWs (serialize j) = false := by
  obtain ⟨cs, c, hc, hw⟩ := serialize_last j
  rw [hc, lastWs_append_singleton]
  exact hw

theorem serialize_ne_nil (j : Json) : serialize j ≠ [] := by
  obtain ⟨c, cs, hc, _⟩ := serialize_head j
  rw [hc]
  simp

theorem trimStr_serialize (j : Json) : trimStr (serialize j) = serialize j :=
  trimStr_id _ (serialize_headWs j) (serialize_lastWs j)

/-! ## The fenced-block families -/

/-- A json-tagged fenced block around `s`. -/
def fenceJson (s : List Char) : List Char :=
  fenceJsonPre ++ ('\n' :: (s ++ ('\n' :: tickMark)))

/-- An untagged fenced block around `s`. -/
def fencePlain (s : List Char) : List Char :=
  tickMark ++ ('\n' :: (s ++ ('\n' :: tickMark)))

theorem matchFence_fence_generic (pre s : List Char) (post : List Char) (hne : pre ≠ [])
    (hsne : s ≠ []) (hocc : occursIn tickMark s = false) (hhead : headWs s = false)
    (hlast : lastWs s = false) :
    matchFence pre (pre ++ ('\n' :: (s ++ ('\n' :: tickMark))) ++ post) = some s := by
  rw [List.append_assoc]
  apply matchFence_start pre _ s hne
  have hshape : ('\n' :: (s ++ ('\n' :: tickMark))) ++ post =
      '\n' :: (s ++ ('\n' :: (tickMark ++ post))) := by
    simp [List.cons_append, List.append_assoc]
  rw [hshape]
  have hdrop : ('\n' :: (s ++ ('\n' :: (tickMark ++ post)))).dropWhile jsWs =
      s ++ ('\n' :: (tickMark ++ post)) := by
    rw [List.dropWhile_cons]
    simp only [show jsWs '\n' = true from by decide, if_true]
    apply dropWhile_headWs
    cases s with
    | nil => exact absurd rfl hsne
    | cons c t => exact hhead
  rw [hdrop]
  exact lazyCapture_fence s post hocc hlast

theorem matchFence_skip_tickFree (pre P T : List Char) (hp : ∃ pr, pre = btick :: pr)
    (hfree : ∀ x ∈ P, x ≠ btick) : matchFence pre (P ++ T) = matchFence pre T := by
  apply matchFence_skip_tails
  intro sfx hs hne
  obtain ⟨pr, rfl⟩ := hp
  cases sfx with
  | nil => exact absurd rfl hne
  | cons c t =>
    have hc : c ≠ btick := hfree c (hs.subset (by simp))
    have hbc : (btick == c) = false := by
      simp only [beq_eq_false_iff_ne, ne_eq]
      exact fun he => hc he.symm
    rw [List.cons_append]
    simp [List.isPrefixOf, hbc]

theorem fenceJsonPre_shape : ∃ pr, fenceJsonPre = btick :: pr :=
  ⟨[btick, btick, 'j', 's', 'o', 'n'], rfl⟩

theorem tickMark_shape : ∃ pr, tickMark = btick :: pr := ⟨[btick, btick], rfl⟩

theorem selectClean_json_first (P s post : List Char) (hfree : ∀ x ∈ P, x ≠ btick)
    (hsne : s ≠ []) (hocc : occursIn tickMark s = false) (hhead : headWs s = false)
    (hlast : lastWs s = false) :
    selectClean (P ++ (fenceJson s ++ post)) = s := by
  have hshape : fenceJson s ++ post =
      fenceJsonPre ++ ('\n' :: (s ++ ('\n' :: tickMark))) ++ post := by
    simp [fenceJson, List.append_assoc]
  have hm : matchFence fenceJsonPre (P ++ (fenceJson s ++ post)) = some s := by
    rw [matchFence_skip_tickFree _ _ _ fenceJsonPre_shape hfree, hshape]
    exact matchFence_fence_generic _ _ _ (by simp [fenceJsonPre, tickMark]) hsne hocc hhead hlast
  unfold selectClean
  rw [hm]

theorem selectClean_plain_first (P s post : List Char) (hfree : ∀ x ∈ P, x ≠ btick)
    (hsne : s ≠ []) (hocc : occursIn tickMark s = false) (hhead : headWs s = false)
    (hlast : lastWs s = false)
    (hnojson : occursIn fenceJsonPre (P ++ (fencePlain s ++ post)) = false) :
    selectClean (P ++ (fencePlain s ++ post)) = s := by
  have hshape : fencePlain s ++ post =
      tickMark ++ ('\n' :: (s ++ ('\n' :: tickMark))) ++ post := by
    simp [fencePlain, List.append_assoc]
  have hm1 : matchFence fenceJsonPre (P ++ (fencePlain s ++ post)) = none :=
    matchFence_none_of_not_occurs _ _ hnojson
  have hm2 : matchFence tickMark (P ++ (fencePlain s ++ post)) = some s := by
    rw [matchFence_skip_tickFree _ _ _ tickMark_shape hfree, hshape]
    exact matchFence_fence_generic _ _ _ (by simp [tickMark]) hsne hocc hhead hlast
  unfold selectClean
  rw [hm1, hm2]

theorem selectClean_noFence (text : List Char) (h : occursIn tickMark text = false) :
    selectClean text = text := by
  have h2 : occursIn fenceJsonPre text = false :=
    occursIn_false_of_prefix tickMark fenceJsonPre text ⟨['j', 's', 'o', 'n'], rfl⟩
      (by simp [tickMark]) h
  unfold selectClean
  rw [matchFence_none_of_not_occurs _ _ h2, matchFence_none_of_not_occurs _ _ h]

/-! ## Venue-profile context mapping (getProfileContext, src/index.ts lines 38-63) -/

def ctxIEEE : List Char :=
  ("\n\nJournal Context: IEEE/Technical — Prioritize technical precision and formal engineering terminology. Avoid conversational or colloquial terms.").toList

def ctxNature : List Char :=
  ("\n\nJournal Context: Nature/Cell — Target broad scientific audience. Prefer clear, accessible language while maintaining scientific rigor. Avoid overly technical jargon when simpler terms exist.").toList

def ctxML : List Char :=
  ("\n\nJournal Context: ML Conference — Modern AI/ML research community. Accepts contemporary terminology (e.g., 'we', 'our approach'). Prioritize clarity and common ML conventions.").toList

def ctxACM : List Char :=
  ("\n\nJournal Context: ACM/Springer — Standard academic formality. Balance technical precision with readability.").toList

def hitsIEEE (pid : List Char) : Bool :=
  occursIn (("ieee").toList) pid || occursIn (("postech").toList) pid ||
    occursIn (("kaist").toList) pid

def hitsNature (pid : List Char) : Bool :=
  occursIn (("nature").toList) pid || occursIn (("cell").toList) pid ||
    occursIn (("science").toList) pid

def hitsML (pid : List Char) : Bool :=
  occursIn (("neurips").toList) pid || occursIn (("icml").toList) pid ||
    occursIn (("aaai").toList) pid || occursIn (("acl").toList) pid ||
    occursIn (("emnlp").toList) pid

def hitsACM (pid : List Char) : Bool :=
  occursIn (("acm").toList) pid || occursIn (("springer").toList) pid

/-- Model of `getProfileContext` (case-sensitive `String.includes` checks,
evaluated in source order; `none`/empty string yields no context). -/
def getProfileContext (profileId : Option (List Char)) : List Char :=
  match profileId with
  | none => []
  | some pid =>
    if pid = [] then []
    else if hitsIEEE pid then ctxIEEE
    else if hitsNature pid then ctxNature
    else if hitsML pid then ctxML
    else if hitsACM pid then ctxACM
    else []

/-! ## The /analyze/review-paper pipeline (src/index.ts lines 410-657) -/

inductive UpstreamError where
  | timeout
  | rateLimited
  | other

def isTimeoutErr : UpstreamError → Bool
  | .timeout => true
  | _ => false

structure ReviewerEntry where
  persona : String
  focus : String
  score : Option Json
  strengths : Option Json
  weaknesses : Option Json
  comment : Option Json

structure Issue where
  id : List Char
  severity : String
  category : String
  issue : Json

structure ReviewOutcome where
  overallScore : Option ℚ
  acceptProbability : Option ℤ
  recommendation : String
  reviewerScores : List ReviewerEntry
  criticalIssues : List Issue
  comparativeBenchmark : Option Json

inductive HttpResponse where
  | ok (outcome : ReviewOutcome)
  | badRequest (msg : String)
  | gatewayTimeout
  | serverError

inductive CallTag where
  | benchmark
  | reviewerA
  | reviewerB
  | reviewerC

/-- JS object field lookup; with duplicate keys from JSON.parse the later
assignment wins, and absent fields are `undefined` (`none` here). -/
def lookupLast : List (List Char × Json) → List Char → Option Json
  | [], _ => none
  | (k', v) :: rest, k =>
    match lookupLast rest k with
    | some r => some r
    | none => if k' = k then some v else none

def getField (j : Json) (k : List Char) : Option Json :=
  match j with
  | .obj kvs => lookupLast kvs k
  | _ => none

def isTruthy : Json → Bool
  | .null => false
  | .bool b => b
  | .num n => n != 0
  | .str s => !s.isEmpty
  | .arr _ => true
  | .obj _ => true

def truthyOpt : Option Json → Bool
  | none => false
  | some j => isTruthy j

/-- JS `typeof x === 'object'` on JSON values (true for null, arrays, objects). -/
def jsTypeofObject : Json → Bool
  | .null => true
  | .arr _ => true
  | .obj _ => true
  | _ => false

def isNull : Json → Bool
  | .null => true
  | _ => false

def kSections : List Char := ("sections").toList
def kAbstract : List Char := ("abstract").toList
def kIntroduction : List Char := ("introduction").toList
def kMethod : List Char := ("method").toList
def kResults : List Char := ("results").toList
def kScore : List Char := ("score").toList
def kStrengths : List Char := ("strengths").toList
def kWeaknesses : List Char := ("weaknesses").toList
def kComment : List Char := ("comment").toList

/-- The guard `!sections || typeof sections !== 'object'`. -/
def sectionsObjOk (body : Json) : Bool :=
  match getField body kSections with
  | none => false
  | some s => isTruthy s && jsTypeofObject s

/-- The guard `!abstract || !introduction || !method || !results`. -/
def requiredSectionsOk (body : Json) : Bool :=
  let s := (getField body kSections).getD Json.null
  truthyOpt (getField s kAbstract) && truthyOpt (getField s kIntroduction) &&
    truthyOpt (getField s kMethod) && truthyOpt (getField s kResults)

/-- `samples && Array.isArray(samples) && samples.length > 0`. -/
def isNonemptyArr : Option Json → Bool
  | some (.arr (_ :: _)) => true
  | _ => false

def wantsBenchmark (body : Json) : Bool :=
  isNonemptyArr (getField body (("acceptedSamples").toList)) ||
    isNonemptyArr (getField body (("rejectedSamples").toList))

/-- `content || "{}"` — null and the empty string both fall back. -/
def contentOr (c : Option (List Char)) : List Char :=
  match c with
  | some s => if s = [] then ['{', '}'] else s
  | none => ['{', '}']

def defaultVerdict : Json :=
  Json.obj [(kScore, Json.num 5), (kStrengths, Json.arr []), (kWeaknesses, Json.arr []),
    (kComment, Json.str [])]

/-- `.toFixed(1)` on a rational (round half away from zero toward +∞,
as toFixed behaves for one fractional digit). -/
def roundTo1 (q : ℚ) : ℚ := (⌊q * 10 + 1 / 2⌋ : ℚ) / 10

/-- `Math.round`: round half toward +∞. -/
def jsRound (q : ℚ) : ℤ := ⌊q + 1 / 2⌋

def acceptProbQ (s : ℚ) : ℤ := jsRound (min 100 (max 0 ((s - 3) * (1667 / 100 : ℚ))))

def acceptProbOf : Option ℚ → Option ℤ
  | none => none
  | some s => some (acceptProbQ s)

def recommendationOf : Option ℚ → String
  | none => ("reject")
  | some s =>
    if 8 ≤ s then ("strong_accept")
    else if 7 ≤ s then ("weak_accept")
    else if 6 ≤ s then ("borderline_accept")
    else if 5 ≤ s then ("borderline_reject")
    else if 4 ≤ s then ("weak_reject")
    else ("reject")

/-- JS `+` coercion classes for the three score positions: a string (or
array/object, which coerce to strings) anywhere makes the sum a string;
otherwise an undefined makes it NaN; otherwise it is a number
(null coerces to 0, booleans to 0/1). -/
inductive Coerced where
  | numv (q : ℚ)
  | nanv
  | strv

def coerceForAdd : Option Json → Coerced
  | none => .nanv
  | some .null => .numv 0
  | some (.bool b) => .numv (if b then 1 else 0)
  | some (.num n) => .numv ((n : ℚ))
  | some (.str _) => .strv
  | some (.arr _) => .strv
  | some (.obj _) => .strv

def addCoerced : Coerced → Coerced → Coerced
  | .strv, _ => .strv
  | _, .strv => .strv
  | .nanv, _ => .nanv
  | _, .nanv => .nanv
  | .numv a, .numv b => .numv (a + b)

/-- `parseFloat(((a+b+c)/3).toFixed(1))` on the numeric path, NaN otherwise. -/
def overallOf : Coerced → Option ℚ
  | .numv s => some (roundTo1 (s / 3))
  | _ => none

def asArray : Option Json → Option (List Json)
  | some (.arr xs) => some xs
  | _ => none

def tagIssues (pre : List Char) (sev cat : String) : Nat → List Json → List Issue
  | _, [] => []
  | i, w :: ws =>
    { id := pre ++ natToChars i, severity := sev, category := cat, issue := w } ::
      tagIssues pre sev cat (i + 1) ws

/-- criticalIssues (src/index.ts lines 630-643): Theorist weaknesses tagged
(novelty, medium), then Experimentalist weaknesses tagged (experiment, high),
sliced to the first 5.  Reviewer C is not consulted. -/
def buildCriticalIssues (wA wB : List Json) : List Issue :=
  (tagIssues (("issue_a").toList) ("medium") ("novelty") 0 wA ++
    tagIssues (("issue_b").toList) ("high") ("experiment") 0 wB).take 5

def mkEntry (persona focus : String) (v : Json) : ReviewerEntry :=
  { persona := persona, focus := focus, score := getField v kScore,
    strengths := getField v kStrengths, weaknesses := getField v kWeaknesses,
    comment := getField v kComment }

/-- The aggregation after all three reviewer calls settled successfully
(src/index.ts lines 578-645), including the JS dynamic-type failure modes
that the surrounding catch turns into HTTP 500. -/
def aggregateReviews (cA cB cC : Option (List Char)) (cb : Json) : HttpResponse :=
  let vA := parseJSONResponse (contentOr cA) defaultVerdict
  let vB := parseJSONResponse (contentOr cB) defaultVerdict
  let vC := parseJSONResponse (contentOr cC) defaultVerdict
  if isNull vA || isNull vB || isNull vC then .serverError
  else
    match addCoerced (addCoerced (coerceForAdd (getField vA kScore))
        (coerceForAdd (getField vB kScore))) (coerceForAdd (getField vC kScore)) with
    | .strv => .serverError
    | total =>
      let overall : Option ℚ := overallOf total
      match asArray (getField vA kWeaknesses), asArray (getField vB kWeaknesses) with
      | some wA, some wB =>
        .ok { overallScore := overall, acceptProbability := acceptProbOf overall,
              recommendation := recommendationOf overall,
              reviewerScores := [mkEntry ("Theorist") ("novelty_and_formalism") vA,
                mkEntry ("Experimentalist") ("empirical_rigor") vB,
                mkEntry ("Impact_Assessor") ("significance_and_impact") vC],
              criticalIssues := buildCriticalIssues wA wB,
              comparativeBenchmark := if isTruthy cb then some cb else none }
      | _, _ => .serverError

def errResponse (e : UpstreamError) : HttpResponse :=
  if isTimeoutErr e then .gatewayTimeout else .serverError

/-- The result an upstream completion call settles with: a classified error,
or a message content (possibly null). -/
abbrev OracleResult := Except UpstreamError (Option (List Char))

/-- The /analyze/review-paper handler.  Upstream calls are oracle inputs; the
second component lists the upstream calls issued.  `Promise.all` rejects with
the first settled rejection; absent timing, the model takes the first failed
reviewer in A, B, C order (exact when at most one call fails). -/
def reviewPaperHandler (body : Json) (bench rA rB rC : OracleResult) :
    HttpResponse × List CallTag :=
  if sectionsObjOk body = false then
    (.badRequest ("sections object is required"), [])
  else if requiredSectionsOk body = false then
    (.badRequest ("Required sections: abstract, introduction, method, results"), [])
  else
    let benchCalls := if wantsBenchmark body then [CallTag.benchmark] else []
    let cb : Json :=
      if wantsBenchmark body then
        match bench with
        | .ok c => parseJSONResponse (contentOr c) Json.null
        | .error _ => Json.null
      else Json.null
    let calls := benchCalls ++ [CallTag.reviewerA, CallTag.reviewerB, CallTag.reviewerC]
    match rA, rB, rC with
    | .error e, _, _ => (errResponse e, calls)
    | .ok _, .error e, _ => (errResponse e, calls)
    | .ok _, .ok _, .error e => (errResponse e, calls)
    | .ok cA, .ok cB, .ok cC => (aggregateReviews cA cB cC cb, calls)

/-! ## Shared extraction facts -/

theorem parseJSONResponse_of_none (t : List Char) (fb : Json)
    (h : parseJson (trimStr (selectClean t)) = none) : parseJSONResponse t fb = fb := by
  unfold parseJSONResponse
  rw [h]

theorem parseJSONResponse_serialize_self (j fb : Json)
    (h : occursIn tickMark (serialize j) = false) :
    parseJSONResponse (serialize j) fb = j := by
  unfold parseJSONResponse
  rw [selectClean_noFence _ h, trimStr_serialize, parseJson_serialize]

/-! ## Concrete fixtures shared by the handler scenarios -/

/-- A well-formed request body: all four required sections present, non-empty. -/
def dBody : Json :=
  Json.obj [(kSections, Json.obj [(kAbstract, Json.str (("A").toList)),
    (kIntroduction, Json.str (("B").toList)), (kMethod, Json.str (("C").toList)),
    (kResults, Json.str (("D").toList))])]

/-- A full reviewer verdict with score 8. -/
def dVerdict8 : Json :=
  Json.obj [(kScore, Json.num 8), (kStrengths, Json.arr []), (kWeaknesses, Json.arr []),
    (kComment, Json.str (("ok").toList))]

def okContent (j : Json) : OracleResult := Except.ok (some (serialize j))

def outcomeOf : HttpResponse → Option ReviewOutcome
  | .ok o => some o
  | _ => none

/-! ## Claims -/

/-- Claim C6: for every rational overallScore (including values below 3 and
above 9), acceptProbability equals round(clamp((overallScore - 3) * 16.67, 0,
100)) and always lies in [0, 100]. -/
theorem claim_C6 : ∀ s : ℚ,
    acceptProbOf (some s) = some (jsRound (min 100 (max 0 ((s - 3) * (1667 / 100 : ℚ))))) ∧
    0 ≤ acceptProbQ s ∧ acceptProbQ s ≤ 100 := by
  intro s
  have hm0 : (0 : ℚ) ≤ min 100 (max 0 ((s - 3) * (1667 / 100 : ℚ))) :=
    le_min (by norm_num) (le_max_left _ _)
  have hm100 : min 100 (max 0 ((s - 3) * (1667 / 100 : ℚ))) ≤ 100 := min_le_left _ _
  refine ⟨rfl, ?_, ?_⟩
  · unfold acceptProbQ jsRound
    rw [Int.le_floor]
    push_cast
    linarith
  · unfold acceptProbQ jsRound
    have hlt : ((⌊min 100 (max 0 ((s - 3) * (1667 / 100 : ℚ))) + 1 / 2⌋ : ℤ)) < 101 := by
      rw [Int.floor_lt]
      push_cast
      linarith
    omega

/-- Claim C8: criticalIssues is the concatenation of Theorist weaknesses
(category novelty, severity medium) then Experimentalist weaknesses (category
experiment, severity high), with per-list sequential ids, truncated to 5; it
never exceeds 5 entries and draws only from those two tagged lists
(Impact_Assessor weaknesses never appear); with 4 and 3 weaknesses the result
is the first 4 Theorist entries followed by the first Experimentalist entry. -/
theorem claim_C8 : ∀ wA wB : List Json,
    buildCriticalIssues wA wB =
      (tagIssues (("issue_a").toList) ("medium") ("novelty") 0 wA ++
        tagIssues (("issue_b").toList) ("high") ("experiment") 0 wB).take 5 ∧
    (buildCriticalIssues wA wB).length ≤ 5 ∧
    (buildCriticalIssues wA wB).Sublist
      (tagIssues (("issue_a").toList) ("medium") ("novelty") 0 wA ++
        tagIssues (("issue_b").toList) ("high") ("experiment") 0 wB) ∧
    buildCriticalIssues
        [Json.str (("w1").toList), Json.str (("w2").toList), Json.str (("w3").toList),
          Json.str (("w4").toList)]
        [Json.str (("x1").toList), Json.str (("x2").toList), Json.str (("x3").toList)] =
      [{ id := ("issue_a0").toList, severity := ("medium"), category := ("novelty"),
          issue := Json.str (("w1").toList) },
        { id := ("issue_a1").toList, severity := ("medium"), category := ("novelty"),
          issue := Json.str (("w2").toList) },
        { id := ("issue_a2").toList, severity := ("medium"), category := ("novelty"),
          issue := Json.str (("w3").toList) },
        { id := ("issue_a3").toList, severity := ("medium"), category := ("novelty"),
          issue := Json.str (("w4").toList) },
        { id := ("issue_b0").toList, severity := ("high"), category := ("experiment"),
          issue := Json.str (("x1").toList) }] := by
  intro wA wB
  refine ⟨rfl, ?_, List.take_sublist _ _, rfl⟩
  unfold buildCriticalIssues
  rw [List.length_take]
  omega

/-- Claim C10: venue-profile matching is case-sensitive lowercase substring
matching — a profileId hitting no lowercase keyword family (for example one
containing a keyword only in a different letter case) yields the empty
context, like an absent profileId; when several families match, the first in
the order IEEE, Nature/Science, ML-conference, ACM/Springer wins. -/
theorem claim_C10 : ∀ pid : List Char,
    (hitsIEEE pid = false → hitsNature pid = false → hitsML pid = false →
      hitsACM pid = false →
      getProfileContext (some pid) = [] ∧ getProfileContext none = []) ∧
    (hitsIEEE pid = true → getProfileContext (some pid) = ctxIEEE) ∧
    (hitsIEEE pid = false → hitsNature pid = true →
      getProfileContext (some pid) = ctxNature) ∧
    (hitsIEEE pid = false → hitsNature pid = false → hitsML pid = true →
      getProfileContext (some pid) = ctxML) ∧
    (hitsIEEE pid = false → hitsNature pid = false → hitsML pid = false →
      hitsACM pid = true → getProfileContext (some pid) = ctxACM) := by
  intro pid
  by_cases hemp : pid = []
  · subst hemp
    refine ⟨fun _ _ _ _ => ⟨rfl, rfl⟩, ?_, ?_, ?_, ?_⟩ <;> intro h <;> simp [hitsIEEE] at h <;>
      first
      | (exact absurd h (by decide))
      | skip
    all_goals intros
    all_goals simp_all [hitsNature, hitsML, hitsACM, occursIn]
  · refine ⟨fun h1 h2 h3 h4 => ⟨by simp [getProfileContext, hemp, h1, h2, h3, h4], rfl⟩,
      fun h1 => by simp [getProfileContext, hemp, h1],
      fun h1 h2 => by simp [getProfileContext, hemp, h1, h2],
      fun h1 h2 h3 => by simp [getProfileContext, hemp, h1, h2, h3],
      fun h1 h2 h3 h4 => by simp [getProfileContext, hemp, h1, h2, h3, h4]⟩

/-- Witness for C10: profileId "IEEE" (uppercase only) yields no context,
and a profileId containing both "nature" and "acm" gets the Nature context
(Nature family is checked before ACM). -/
theorem claim_C10_witness :
    (hitsIEEE (("IEEE").toList) = false ∧ getProfileContext (some (("IEEE").toList)) = []) ∧
    getProfileContext (some (("acm-nature").toList)) = ctxNature :=
  ⟨⟨by decide, ((claim_C10 (("IEEE").toList)).1 (by decide) (by decide) (by decide)
      (by decide)).1⟩,
    (claim_C10 (("acm-nature").toList)).2.2.1 (by decide) (by decide)⟩

theorem recommendationOf_some (s : ℚ) :
    recommendationOf (some s) =
      (if 8 ≤ s then ("strong_accept") else if 7 ≤ s then ("weak_accept")
       else if 6 ≤ s then ("borderline_accept") else if 5 ≤ s then ("borderline_reject")
       else if 4 ≤ s then ("weak_reject") else ("reject")) := rfl

/-- Claim C7: the overall score is the arithmetic mean of the three reviewer
scores rounded to one decimal, and the recommendation follows the fixed
threshold table evaluated highest-first (first match wins); with all three
scores 8 the handler returns overallScore 8, recommendation strong_accept and
acceptProbability 83. -/
theorem claim_C7 :
    (∀ total : ℚ, overallOf (Coerced.numv total) = some (roundTo1 (total / 3))) ∧
    (∀ s : ℚ,
      (8 ≤ s → recommendationOf (some s) = ("strong_accept")) ∧
      (7 ≤ s → s < 8 → recommendationOf (some s) = ("weak_accept")) ∧
      (6 ≤ s → s < 7 → recommendationOf (some s) = ("borderline_accept")) ∧
      (5 ≤ s → s < 6 → recommendationOf (some s) = ("borderline_reject")) ∧
      (4 ≤ s → s < 5 → recommendationOf (some s) = ("weak_reject")) ∧
      (s < 4 → recommendationOf (some s) = ("reject"))) ∧
    (reviewPaperHandler dBody (Except.ok none) (okContent dVerdict8) (okContent dVerdict8)
        (okContent dVerdict8)).1 =
      HttpResponse.ok
        { overallScore := some 8, acceptProbability := some 83,
          recommendation := ("strong_accept"),
          reviewerScores := [mkEntry ("Theorist") ("novelty_and_formalism") dVerdict8,
            mkEntry ("Experimentalist") ("empirical_rigor") dVerdict8,
            mkEntry ("Impact_Assessor") ("significance_and_impact") dVerdict8],
          criticalIssues := [], comparativeBenchmark := none } := by
  refine ⟨fun total => rfl, ?_, ?_⟩
  · intro s
    refine ⟨?_, ?_, ?_, ?_, ?_, ?_⟩
    · intro h
      rw [recommendationOf_some]
      rw [if_pos h]
    · intro h1 h2
      rw [recommendationOf_some]
      rw [if_neg (by linarith), if_pos h1]
    · intro h1 h2
      rw [recommendationOf_some]
      rw [if_neg (by linarith), if_neg (by linarith), if_pos h1]
    · intro h1 h2
      rw [recommendationOf_some]
      rw [if_neg (by linarith), if_neg (by linarith), if_neg (by linarith), if_pos h1]
    · intro h1 h2
      rw [recommendationOf_some]
      rw [if_neg (by linarith), if_neg (by linarith), if_neg (by linarith),
        if_neg (by linarith), if_pos h1]
    · intro h1
      rw [recommendationOf_some]
      rw [if_neg (by linarith), if_neg (by linarith), if_neg (by linarith),
        if_neg (by linarith), if_neg (by linarith)]
  · have hstep : (reviewPaperHandler dBody (Except.ok none) (okContent dVerdict8)
        (okContent dVerdict8) (okContent dVerdict8)).1 =
        HttpResponse.ok
          { overallScore := overallOf (Coerced.numv (((8 : ℤ) : ℚ) + ((8 : ℤ) : ℚ) +
              ((8 : ℤ) : ℚ))),
            acceptProbability := acceptProbOf (overallOf (Coerced.numv (((8 : ℤ) : ℚ) +
              ((8 : ℤ) : ℚ) + ((8 : ℤ) : ℚ)))),
            recommendation := recommendationOf (overallOf (Coerced.numv (((8 : ℤ) : ℚ) +
              ((8 : ℤ) : ℚ) + ((8 : ℤ) : ℚ)))),
            reviewerScores := [mkEntry ("Theorist") ("novelty_and_formalism") dVerdict8,
              mkEntry ("Experimentalist") ("empirical_rigor") dVerdict8,
              mkEntry ("Impact_Assessor") ("significance_and_impact") dVerdict8],
            criticalIssues := [], comparativeBenchmark := none } := rfl
    have h8 : overallOf (Coerced.numv (((8 : ℤ) : ℚ) + ((8 : ℤ) : ℚ) + ((8 : ℤ) : ℚ))) =
        some 8 := by
      show some (roundTo1 ((((8 : ℤ) : ℚ) + ((8 : ℤ) : ℚ) + ((8 : ℤ) : ℚ)) / 3)) = some 8
      rw [show ((((8 : ℤ) : ℚ) + ((8 : ℤ) : ℚ) + ((8 : ℤ) : ℚ)) / 3) = 8 from by norm_num]
      unfold roundTo1
      rw [show ((8 : ℚ) * 10 + 1 / 2) = 161 / 2 from by norm_num,
        show (⌊(161 / 2 : ℚ)⌋ : ℤ) = 80 from by norm_num [Int.floor_eq_iff],
        show (((80 : ℤ) : ℚ) / 10) = 8 from by norm_num]
    have hap : acceptProbOf (some (8 : ℚ)) = some 83 := by
      show some (acceptProbQ 8) = some 83
      unfold acceptProbQ jsRound
      rw [show min 100 (max 0 (((8 : ℚ) - 3) * (1667 / 100))) = 1667 / 20 from by
        rw [max_eq_right (by norm_num), min_eq_right (by norm_num)]
        norm_num]
      rw [show ((1667 / 20 : ℚ) + 1 / 2) = 1677 / 20 from by norm_num]
      rw [show (⌊(1677 / 20 : ℚ)⌋ : ℤ) = 83 from by norm_num [Int.floor_eq_iff]]
    have hrec : recommendationOf (some (8 : ℚ)) = ("strong_accept") := by
      rw [recommendationOf_some, if_pos (le_refl _)]
    rw [hstep, h8, hap, hrec]

/-- Witness for C7: the threshold table at concrete scores (7.7 is a
weak_accept, 5 is a borderline_reject). -/
theorem claim_C7_witness :
    recommendationOf (some ((77 : ℚ) / 10)) = ("weak_accept") ∧
    recommendationOf (some (5 : ℚ)) = ("borderline_reject") :=
  ⟨((claim_C7.2.1 ((77 : ℚ) / 10)).2.1 (by norm_num) (by norm_num)),
    ((claim_C7.2.1 (5 : ℚ)).2.2.2.1 (by norm_num) (by norm_num))⟩

/-- Claim C9: when the sections object is missing or any of the four
required sections is absent or the empty string, the request is rejected with
HTTP 400 carrying a validation message, and no upstream completion call is
issued. -/
theorem claim_C9 : ∀ (body : Json) (bench rA rB rC : OracleResult),
    (getField body kSections = none ∨
      (∃ req ∈ [kAbstract, kIntroduction, kMethod, kResults],
        getField ((getField body kSections).getD Json.null) req = none ∨
        getField ((getField body kSections).getD Json.null) req = some (Json.str []))) →
    ∃ msg, reviewPaperHandler body bench rA rB rC = (.badRequest msg, []) := by
  intro body bench rA rB rC h
  by_cases hso : sectionsObjOk body = false
  · refine ⟨("sections object is required"), ?_⟩
    unfold reviewPaperHandler
    rw [if_pos hso]
  · rw [Bool.not_eq_false] at hso
    have hreq : requiredSectionsOk body = false := by
      rcases h with h | ⟨req, hmem, hval⟩
      · exfalso
        unfold sectionsObjOk at hso
        rw [h] at hso
        exact Bool.false_ne_true hso
      · have hto : truthyOpt (getField ((getField body kSections).getD Json.null) req) =
            false := by
          rcases hval with hval | hval <;> rw [hval] <;> rfl
        unfold requiredSectionsOk
        simp only [List.mem_cons, List.mem_singleton] at hmem
        rcases hmem with rfl | rfl | rfl | rfl | hfalse
        · simp [hto]
        · simp [hto]
        · simp [hto]
        · simp [hto]
        · simp at hfalse
    refine ⟨("Required sections: abstract, introduction, method, results"), ?_⟩
    unfold reviewPaperHandler
    rw [if_neg (by simp [hso]), if_pos hreq]

/-- Witness for C9: a body whose sections lack the method key gets a 400 and
no upstream call. -/
theorem claim_C9_witness :
    ∃ msg, reviewPaperHandler
      (Json.obj [(kSections, Json.obj [(kAbstract, Json.str (("A").toList)),
        (kIntroduction, Json.str (("B").toList)), (kResults, Json.str (("D").toList))])])
      (Except.ok none) (Except.ok none) (Except.ok none) (Except.ok none) =
      (.badRequest msg, []) :=
  claim_C9 _ _ _ _ _ (Or.inr ⟨kMethod, by simp, Or.inl rfl⟩)

/-- Claim C3: extraction round-trip — for every structured value O whose
serialization contains no triple-backtick marker, wrapping JSON(O) in a
json-tagged fenced block and extracting returns O, for any fallback. -/
theorem claim_C3 : ∀ (O fb : Json), occursIn tickMark (serialize O) = false →
    parseJSONResponse (fenceJson (serialize O)) fb = O := by
  intro O fb hocc
  have hsel : selectClean (fenceJson (serialize O)) = serialize O := by
    have hshape : fenceJson (serialize O) = [] ++ (fenceJson (serialize O) ++ []) := by simp
    rw [hshape]
    exact selectClean_json_first [] _ [] (by simp) (serialize_ne_nil O) hocc
      (serialize_headWs O) (serialize_lastWs O)
  unfold parseJSONResponse
  rw [hsel, trimStr_serialize, parseJson_serialize]

/-- Witness for C3: a concrete object round-trips through the fenced
extractor. -/
theorem claim_C3_witness :
    occursIn tickMark (serialize (Json.obj [(kScore, Json.num 8)])) = false ∧
    parseJSONResponse (fenceJson (serialize (Json.obj [(kScore, Json.num 8)]))) Json.null =
      Json.obj [(kScore, Json.num 8)] :=
  ⟨by decide, claim_C3 (Json.obj [(kScore, Json.num 8)]) Json.null (by decide)⟩

/-- Counterexample to C4 as stated: "x ```json 1 ``` y" is not parseable
JSON, yet the extractor returns the fenced value 1, not the fallback. -/
theorem claim_C4_counterexample :
    parseJson (("x ```json\n1\n``` y").toList) = none ∧
    parseJSONResponse (("x ```json\n1\n``` y").toList) Json.null = Json.num 1 ∧
    Json.num 1 ≠ Json.null :=
  ⟨rfl, rfl, by simp⟩

/-- Claim C4 (amended): the extractor returns the fallback unchanged whenever
the text it selects (the first json-tagged fenced block interior if one
matches, else the first fenced interior, else the whole text) fails to parse
as JSON — in particular on the empty string; extraction is a total function,
so it never throws. -/
theorem claim_C4_amended : ∀ (t : List Char) (fb : Json),
    (parseJson (trimStr (selectClean t)) = none → parseJSONResponse t fb = fb) ∧
    parseJSONResponse [] fb = fb := by
  intro t fb
  exact ⟨fun h => parseJSONResponse_of_none t fb h, rfl⟩

/-- Witness for C4: a garbage string yields the supplied fallback. -/
theorem claim_C4_witness :
    parseJSONResponse (("not json at all").toList) (Json.num 7) = Json.num 7 :=
  (claim_C4_amended (("not json at all").toList) (Json.num 7)).1 rfl

/-- Counterexample to C5 as stated: in "```1```x```json 2 ```" the first
fenced block's interior is "1", but the extractor returns 2 — the json-tagged
block later in the text is preferred over the earlier untagged block. -/
theorem claim_C5_counterexample :
    parseJSONResponse (("```1```x```json\n2\n```").toList) Json.null = Json.num 2 ∧
    Json.num 2 ≠ Json.num 1 :=
  ⟨rfl, by simp⟩

/-- Claim C5 (amended): the extractor parses the interior of the first
json-tagged fenced block if any exists (regardless of later blocks);
when no json tag occurs it parses the interior of the first untagged fenced
block; with no fenced block at all it parses the whole text. -/
theorem claim_C5_amended :
    (∀ (P s1 mid s2 post : List Char) (fb : Json), (∀ x ∈ P, x ≠ btick) → s1 ≠ [] →
      occursIn tickMark s1 = false → headWs s1 = false → lastWs s1 = false →
      parseJSONResponse (P ++ (fenceJson s1 ++ (mid ++ (fenceJson s2 ++ post)))) fb =
        (parseJson (trimStr s1)).getD fb) ∧
    (∀ (P s0 rest : List Char) (fb : Json), (∀ x ∈ P, x ≠ btick) → s0 ≠ [] →
      occursIn tickMark s0 = false → headWs s0 = false → lastWs s0 = false →
      occursIn fenceJsonPre (P ++ (fencePlain s0 ++ rest)) = false →
      parseJSONResponse (P ++ (fencePlain s0 ++ rest)) fb =
        (parseJson (trimStr s0)).getD fb) ∧
    (∀ (t : List Char) (fb : Json), occursIn tickMark t = false →
      parseJSONResponse t fb = (parseJson (trimStr t)).getD fb) := by
  refine ⟨?_, ?_, ?_⟩
  · intro P s1 mid s2 post fb hfree hne hocc hhead hlast
    have hsel : selectClean (P ++ (fenceJson s1 ++ (mid ++ (fenceJson s2 ++ post)))) = s1 :=
      selectClean_json_first P s1 _ hfree hne hocc hhead hlast
    unfold parseJSONResponse
    rw [hsel]
    cases h : parseJson (trimStr s1) <;> simp [h]
  · intro P s0 rest fb hfree hne hocc hhead hlast hnojson
    have hsel : selectClean (P ++ (fencePlain s0 ++ rest)) = s0 :=
      selectClean_plain_first P s0 rest hfree hne hocc hhead hlast hnojson
    unfold parseJSONResponse
    rw [hsel]
    cases h : parseJson (trimStr s0) <;> simp [h]
  · intro t fb hocc
    unfold parseJSONResponse
    rw [selectClean_noFence t hocc]
    cases h : parseJson (trimStr t) <;> simp [h]

/-- Witness for C5: two json-tagged blocks — the first one (holding 1) wins;
two untagged blocks — the first one (holding 3) wins; no fence — the whole
text is parsed. -/
theorem claim_C5_witness :
    parseJSONResponse (("see: ").toList ++ (fenceJson (("1").toList) ++
        ((" and ").toList ++ (fenceJson (("2").toList) ++ (" end").toList)))) Json.null =
      Json.num 1 ∧
    parseJSONResponse (("pre ").toList ++ (fencePlain (("3").toList) ++
        ((" tail ").toList ++ fencePlain (("4").toList)))) Json.null = Json.num 3 ∧
    parseJSONResponse ((" 5 ").toList) Json.null = Json.num 5 := by
  refine ⟨?_, ?_, ?_⟩
  · rw [claim_C5_amended.1 (("see: ").toList) (("1").toList) ((" and ").toList)
      (("2").toList) ((" end").toList) Json.null (by decide) (by decide) (by decide)
      (by decide) (by decide)]
    rfl
  · rw [claim_C5_amended.2.1 (("pre ").toList) (("3").toList)
      ((" tail ").toList ++ fencePlain (("4").toList)) Json.null (by decide) (by decide)
      (by decide) (by decide) (by decide) (by decide)]
    rfl
  · rw [claim_C5_amended.2.2 ((" 5 ").toList) Json.null (by decide)]
    rfl

/-- Counterexample to C1 as stated: with a well-formed body, a single failing
reviewer call (slot A) makes the request fail outward — 504 for a timeout,
500 otherwise (there is no rate-limit branch) — instead of degrading that
reviewer to the default verdict. -/
theorem claim_C1_counterexample :
    (reviewPaperHandler dBody (Except.ok none) (Except.error UpstreamError.timeout)
        (okContent dVerdict8) (okContent dVerdict8)).1 = HttpResponse.gatewayTimeout ∧
    (reviewPaperHandler dBody (Except.ok none) (Except.error UpstreamError.rateLimited)
        (okContent dVerdict8) (okContent dVerdict8)).1 = HttpResponse.serverError ∧
    outcomeOf HttpResponse.gatewayTimeout = none ∧
    outcomeOf HttpResponse.serverError = none :=
  ⟨rfl, rfl, rfl, rfl⟩

/-- Claim C1 (amended): the default-verdict degradation applies only to a
reviewer call that RESOLVES with unparseable content; a reviewer call that
REJECTS (errors) propagates through the Promise.all join and fails the whole
request, 504 when the error is timeout-classified and 500 otherwise,
whichever of the three slots failed. -/
theorem claim_C1_amended :
    (∀ (body : Json) (bench : OracleResult) (e : UpstreamError) (rB rC : OracleResult),
      sectionsObjOk body = true → requiredSectionsOk body = true →
      (reviewPaperHandler body bench (Except.error e) rB rC).1 =
        (if isTimeoutErr e then HttpResponse.gatewayTimeout else HttpResponse.serverError)) ∧
    (∀ (body : Json) (bench : OracleResult) (cA : Option (List Char)) (e : UpstreamError)
        (rC : OracleResult),
      sectionsObjOk body = true → requiredSectionsOk body = true →
      (reviewPaperHandler body bench (Except.ok cA) (Except.error e) rC).1 =
        (if isTimeoutErr e then HttpResponse.gatewayTimeout else HttpResponse.serverError)) ∧
    (∀ (body : Json) (bench : OracleResult) (cA cB : Option (List Char)) (e : UpstreamError),
      sectionsObjOk body = true → requiredSectionsOk body = true →
      (reviewPaperHandler body bench (Except.ok cA) (Except.ok cB) (Except.error e)).1 =
        (if isTimeoutErr e then HttpResponse.gatewayTimeout else HttpResponse.serverError)) ∧
    (∀ (body : Json) (bench : OracleResult) (badText : List Char) (rB rC : OracleResult),
      sectionsObjOk body = true → requiredSectionsOk body = true →
      parseJson (trimStr (selectClean badText)) = none → badText ≠ [] →
      reviewPaperHandler body bench (Except.ok (some badText)) rB rC =
        reviewPaperHandler body bench (Except.ok (some (serialize defaultVerdict))) rB rC) := by
  refine ⟨?_, ?_, ?_, ?_⟩
  · intro body bench e rB rC hs hr
    simp [reviewPaperHandler, hs, hr, errResponse]
  · intro body bench cA e rC hs hr
    simp [reviewPaperHandler, hs, hr, errResponse]
  · intro body bench cA cB e hs hr
    simp [reviewPaperHandler, hs, hr, errResponse]
  · intro body bench badText rB rC hs hr hbad hne
    have hv1 : parseJSONResponse (contentOr (some badText)) defaultVerdict = defaultVerdict := by
      have hc : contentOr (some badText) = badText := by simp [contentOr, hne]
      rw [hc]
      exact parseJSONResponse_of_none _ _ hbad
    have hv2 : parseJSONResponse (contentOr (some (serialize defaultVerdict))) defaultVerdict =
        defaultVerdict := by
      have hc : contentOr (some (serialize defaultVerdict)) = serialize defaultVerdict := by
        simp [contentOr, serialize_ne_nil]
      rw [hc]
      exact parseJSONResponse_serialize_self _ _ (by decide)
    cases rB with
    | error e => simp [reviewPaperHandler, hs, hr]
    | ok cB =>
      cases rC with
      | error e => simp [reviewPaperHandler, hs, hr]
      | ok cC =>
        have hagg : ∀ cb : Json, aggregateReviews (some badText) cB cC cb =
            aggregateReviews (some (serialize defaultVerdict)) cB cC cb := by
          intro cb
          simp only [aggregateReviews, hv1, hv2]
        simp [reviewPaperHandler, hs, hr, hagg]

/-- Witness for C1: a rate-limited reviewer B on a well-formed request yields
the non-timeout outward failure (500). -/
theorem claim_C1_witness :
    sectionsObjOk dBody = true ∧ requiredSectionsOk dBody = true ∧
    (reviewPaperHandler dBody (Except.ok none) (Except.ok (some (serialize dVerdict8)))
        (Except.error UpstreamError.rateLimited) (Except.ok (some (serialize dVerdict8)))).1 =
      (if isTimeoutErr UpstreamError.rateLimited then HttpResponse.gatewayTimeout
        else HttpResponse.serverError) :=
  ⟨rfl, rfl, claim_C1_amended.2.1 dBody (Except.ok none) (some (serialize dVerdict8))
    UpstreamError.rateLimited (Except.ok (some (serialize dVerdict8))) rfl rfl⟩

/-- Counterexample to C2 as stated: a reviewer-A completion that is valid
JSON but lacks the weaknesses field (here an object with only a score) makes
the whole request fail with 500 — missing fields are not defaulted. -/
theorem claim_C2_counterexample :
    parseJson (serialize (Json.obj [(kScore, Json.num 7)])) =
      some (Json.obj [(kScore, Json.num 7)]) ∧
    (reviewPaperHandler dBody (Except.ok none)
        (Except.ok (some (serialize (Json.obj [(kScore, Json.num 7)]))))
        (okContent dVerdict8) (okContent dVerdict8)).1 = HttpResponse.serverError :=
  ⟨parseJson_serialize _, rfl⟩

/-- Claim C2 (amended): when reviewer A's parsed verdict carries no array
under weaknesses (missing field, or a non-array value), the `.map` call on it
throws and the request fails with 500; no type-appropriate defaulting of
missing fields takes place. -/
theorem claim_C2_amended : ∀ (body : Json) (bench : OracleResult)
    (cA cB cC : Option (List Char)),
    sectionsObjOk body = true → requiredSectionsOk body = true →
    asArray (getField (parseJSONResponse (contentOr cA) defaultVerdict) kWeaknesses) = none →
    (reviewPaperHandler body bench (Except.ok cA) (Except.ok cB) (Except.ok cC)).1 =
      HttpResponse.serverError := by
  intro body bench cA cB cC hs hr hw
  have hagg : ∀ cb : Json, aggregateReviews cA cB cC cb = HttpResponse.serverError := by
    intro cb
    simp only [aggregateReviews]
    split
    · rfl
    · split
      · rfl
      · split
        · rename_i _ _ _ h1 h2
          rw [hw] at h1
          exact Option.noConfusion h1
        · rfl
  simp [reviewPaperHandler, hs, hr, hagg]

/-- Witness for C2: the concrete score-only verdict for reviewer A forces the
500 failure. -/
theorem claim_C2_witness :
    asArray (getField (parseJSONResponse (contentOr (some (serialize
        (Json.obj [(kScore, Json.num 7)])))) defaultVerdict) kWeaknesses) = none ∧
    (reviewPaperHandler dBody (Except.ok none)
        (Except.ok (some (serialize (Json.obj [(kScore, Json.num 7)]))))
        (Except.ok (some (serialize dVerdict8))) (Except.ok (some (serialize dVerdict8)))).1 =
      HttpResponse.serverError :=
  ⟨rfl, claim_C2_amended dBody (Except.ok none)
    (some (serialize (Json.obj [(kScore, Json.num 7)])))
    (some (serialize dVerdict8)) (some (serialize dVerdict8)) rfl rfl rfl⟩
